import Mathlib

/-!
Verification development for the `btconfig` orchestration layer
(`btconfig/__init__.py`).

The development shallowly embeds the configuration data model (JSON-like
nested mappings), the mode resolver `BTConfig._getConfigForMode`, the
lifecycle steps `_prepare` / `_setup` / `_finish` / `run`, and the logging
gate `BTConfig.log`.

The helper module `btconfig.helper` (providing `merge_dicts`) is not part
of the sources under verification; `mergeDicts` below is modelled from the
specification of the merge ("later layers win on key conflicts, nested
mappings merge recursively, non-mapping values are replaced wholesale"),
with in-place first-argument update semantics as forced by every call site
(`merge_dicts(res, ...)` is used in statement position for its effect on
`res`).
-/

/-- JSON-like values, as produced by `json.load`: null, booleans, numbers
(integral numbers suffice for this development), strings, arrays, and
objects.  Objects are association lists of key/value pairs, preserving
insertion order exactly as Python dicts do. -/
inductive Val where
  | vnone : Val
  | vbool (b : Bool) : Val
  | vint (n : Int) : Val
  | vstr (s : String) : Val
  | vlist (l : List Val) : Val
  | vdict (d : List (String × Val)) : Val

/-- An entry of a Python dict: a key paired with a value. -/
abbrev Entry := String × Val

mutual

/-- Structural size of a value (used as a termination measure). -/
def vsz : Val → Nat
  | .vdict d => 1 + dsz d
  | _ => 1

/-- Structural size of a dict (used as a termination measure). -/
def dsz : List Entry → Nat
  | [] => 0
  | (_, v) :: rest => 1 + vsz v + dsz rest

end

/-- Dictionary lookup `d[k]` / `d.get(k)`: the value of the first entry
with the given key (Python dicts have unique keys, so first = only). -/
def lookupD : List Entry → String → Option Val
  | [], _ => none
  | (k', v) :: rest, k => if k' = k then some v else lookupD rest k

/-- Dictionary assignment `d[k] = v` to an existing key: the entry keeps
its position, exactly as in Python. -/
def updateD : List Entry → String → Val → List Entry
  | [], _, _ => []
  | (k', v') :: rest, k, v =>
    if k' = k then (k', v) :: rest else (k', v') :: updateD rest k v

/-- Membership test `k in d`. -/
def hasKeyB : List Entry → String → Bool
  | [], _ => false
  | (k', _) :: rest, k => if k' = k then true else hasKeyB rest k

mutual

/-- Modelled from the spec: the value-level step of `merge_dicts`
(`btconfig.helper`, absent from the sources).  When both sides are
mappings they are merged key-by-key recursively; any other value of the
later layer replaces the earlier value wholesale. -/
def mergeVal : Val → Val → Val
  | .vdict d1, .vdict d2 => .vdict (mergeDicts d1 d2)
  | _, v2 => v2

/-- Modelled from the spec: `merge_dicts(d1, d2)` (`btconfig.helper`,
absent from the sources).  For each key of `d2` in order: if the key is
present in `d1`, the stored value becomes the recursive merge of the two
values (position preserved); otherwise the entry is appended.  The Python
original mutates `d1` in place; this is the resulting value of `d1`. -/
def mergeDicts : List Entry → List Entry → List Entry
  | d1, [] => d1
  | d1, (k, v) :: rest =>
    match lookupD d1 k with
    | some v1 => mergeDicts (updateD d1 k (mergeVal v1 v)) rest
    | none => mergeDicts (d1 ++ [(k, v)]) rest

end

/-- Merge a later-layer value onto an optional earlier value: with no
earlier value the later value is taken as-is. -/
def mergeO : Option Val → Val → Val
  | none, v => v
  | some u, v => mergeVal u v

/-- Pointwise effect of one merge layer on the value stored at one key:
an absent later layer changes nothing; a present one wins (merging
recursively when both sides are mappings). -/
def combine : Option Val → Option Val → Option Val
  | o, none => o
  | o, some v => some (mergeO o v)

/-- Pointwise effect of a whole sequence of merge layers on one key. -/
def chainC (o : Option Val) (ls : List (Option Val)) : Option Val :=
  ls.foldl combine o

/-- Left fold of `mergeDicts` over a list of layers. -/
def foldMerge (x : List Entry) (ds : List (List Entry)) : List Entry :=
  ds.foldl mergeDicts x

/-- Python truthiness of a value, as used by
`if self.config['logging'].get('enabled', True):`. -/
def truthy : Val → Bool
  | .vnone => false
  | .vbool b => b
  | .vint n => n != 0
  | .vstr s => s != ""
  | .vlist l => !l.isEmpty
  | .vdict d => !d.isEmpty

/-- Shallow dict union `\x7b**a, **b\x7d` (used by the `CONFIG_LIVE` /
`CONFIG_BACKTEST` / `CONFIG_OPTIMIZE` literals): keys of `a` keep their
positions, values from `b` win, new keys of `b` are appended. -/
def pyUnion (a b : List Entry) : List Entry :=
  (a.map fun e =>
    match lookupD b e.1 with
    | some v => (e.1, v)
    | none => e)
  ++ b.filter (fun e => !hasKeyB a e.1)

/-- Errors raised by the Python code, by kind and message/attribute. -/
inductive PyError where
  | exn (msg : String)
  | attributeError (attr : String)
  | keyError (key : String)
  | typeError (msg : String)
deriving DecidableEq

/-- Recognized mode `MODE_LIVE = 0`. -/
def MODE_LIVE : Int := 0

/-- Recognized mode `MODE_BACKTEST = 1`. -/
def MODE_BACKTEST : Int := 1

/-- Recognized mode `MODE_OPTIMIZE = 2`. -/
def MODE_OPTIMIZE : Int := 2

/-- Default config template `CONFIG_DEFAULT` (module level, lines
232-236). -/
def CONFIG_DEFAULT : List Entry :=
  [("common", .vdict []), ("cerebro", .vdict []), ("stores", .vdict []),
   ("broker", .vdict []), ("datas", .vdict []), ("feeds", .vdict []),
   ("sizer", .vdict []), ("comminfo", .vdict []), ("plot", .vdict []),
   ("logging", .vdict []), ("analyzers", .vdict []),
   ("strategy", .vdict []), ("_live", .vdict []), ("_backtest", .vdict []),
   ("_optimize", .vdict [])]

/-- Live template `CONFIG_LIVE` (lines 237-238). -/
def CONFIG_LIVE : List Entry :=
  pyUnion CONFIG_DEFAULT
    [("cerebro", .vdict [("stdstats", .vbool false), ("live", .vbool true)])]

/-- Backtest template `CONFIG_BACKTEST` (lines 239-243). -/
def CONFIG_BACKTEST : List Entry :=
  pyUnion CONFIG_DEFAULT
    [("cerebro", .vdict
      [("stdstats", .vbool false), ("live", .vbool false),
       ("optreturn", .vbool false), ("tradehistory", .vbool true)])]

/-- Optimize template `CONFIG_OPTIMIZE = \x7b**CONFIG_DEFAULT,
**CONFIG_BACKTEST\x7d` (line 244). -/
def CONFIG_OPTIMIZE : List Entry :=
  pyUnion CONFIG_DEFAULT CONFIG_BACKTEST

/-- The three module-level mode templates.  `_getConfigForMode` merges
into the selected template object in place (`res = CONFIG_LIVE` aliases
the module-level dict, line 340), so the resolver both reads and replaces
the template for the resolved mode; the state is threaded explicitly
here. -/
structure Templates where
  live : List Entry
  backtest : List Entry
  optimize : List Entry

/-- The module-level templates as first imported. -/
def initialTemplates : Templates :=
  ⟨CONFIG_LIVE, CONFIG_BACKTEST, CONFIG_OPTIMIZE⟩

/-- Is this string one of the three override-section names deleted at
lines 353-355? -/
def isOvName (k : String) : Bool :=
  k == "_live" || k == "_backtest" || k == "_optimize"

/-- Removal of the override sections (`for v in [...]: del(res[v])`,
lines 353-355).  Deleting the (unique) occurrences of the three keys,
preserving the order of the remaining entries, is a single filter. -/
def eraseOverrides (d : List Entry) : List Entry :=
  d.filter (fun e => !isOvName e.1)

/-- Section extraction `self._config.get(name, \x7b\x7d)` followed by use as
the second argument of `merge_dicts`: an absent section merges the empty
dict; a present mapping merges itself; a present non-mapping makes
`merge_dicts` iterate a non-mapping, which raises a type-dependent
runtime error in Python (collapsed to one model error here). -/
def getSection (config : List Entry) (name : String) : Except PyError (List Entry) :=
  match lookupD config name with
  | none => .ok []
  | some (.vdict d) => .ok d
  | some _ => .error (.typeError "merge target is not a mapping")

/-- The section a name denotes when it is absent or a mapping (total
companion of `getSection`, for use in statements). -/
def secD (config : List Entry) (name : String) : List Entry :=
  match lookupD config name with
  | some (.vdict d) => d
  | _ => []

/-- Does `getSection` succeed for this name? -/
def sectionOkB (config : List Entry) (name : String) : Bool :=
  match lookupD config name with
  | none => true
  | some (.vdict _) => true
  | some _ => false

/-- Do all three override sections merge without a type error? -/
def sectionsOk (config : List Entry) : Bool :=
  sectionOkB config "_live" && sectionOkB config "_backtest" &&
    sectionOkB config "_optimize"

/-- The mode resolver `BTConfig._getConfigForMode` (lines 326-357).
`res` starts as the module-level template for the mode (aliased, not
copied), the mode's override section(s) are merged in, then the full
config, then the three override-section keys are deleted; `res` — which
is the template object itself — is returned, so the stored template for
that mode is the returned dict from then on. -/
def getConfigForMode (tpl : Templates) (config : List Entry) (mode : Int) :
    Except PyError (List Entry × Templates) :=
  if mode = MODE_LIVE then
    match getSection config "_live" with
    | .error e => .error e
    | .ok s =>
      let res := eraseOverrides (mergeDicts (mergeDicts tpl.live s) config)
      .ok (res, { tpl with live := res })
  else if mode = MODE_BACKTEST then
    match getSection config "_backtest" with
    | .error e => .error e
    | .ok s =>
      let res := eraseOverrides (mergeDicts (mergeDicts tpl.backtest s) config)
      .ok (res, { tpl with backtest := res })
  else if mode = MODE_OPTIMIZE then
    match getSection config "_backtest" with
    | .error e => .error e
    | .ok sb =>
      match getSection config "_optimize" with
      | .error e => .error e
      | .ok so =>
        let res := eraseOverrides
          (mergeDicts (mergeDicts (mergeDicts tpl.optimize sb) so) config)
        .ok (res, { tpl with optimize := res })
  else .error (.exn "Unknown mode provided")

/-- The template the resolver starts from for a recognized mode. -/
def templFor (tpl : Templates) (mode : Int) : List Entry :=
  if mode = MODE_LIVE then tpl.live
  else if mode = MODE_BACKTEST then tpl.backtest
  else tpl.optimize

/-- The merge layers applied on top of the template for a recognized
mode, in order: override section(s) first, the global config last. -/
def layersFor (config : List Entry) (mode : Int) : List (List Entry) :=
  if mode = MODE_LIVE then [secD config "_live", config]
  else if mode = MODE_BACKTEST then [secD config "_backtest", config]
  else [secD config "_backtest", secD config "_optimize", config]

/-- The template state after a successful resolve: the resolved mode's
template has become the returned effective config. -/
def templUpdate (tpl : Templates) (mode : Int) (res : List Entry) : Templates :=
  if mode = MODE_LIVE then { tpl with live := res }
  else if mode = MODE_BACKTEST then { tpl with backtest := res }
  else { tpl with optimize := res }

/-- A registered part: the model only needs its `PRIORITY` attribute
(class `BTConfigPart`, line 459). -/
structure BTPart where
  PRIORITY : Int

/-- The priority `self._parts[x].PRIORITY` of a registered part name. -/
def partPriority (parts : List (String × BTPart)) (k : String) : Int :=
  match parts.find? (fun e => e.1 == k) with
  | some e => e.2.PRIORITY
  | none => 0

/-- Insert into a descending-priority list, after all entries of equal or
higher priority (stability). -/
def insertDesc (prio : String → Int) (x : String) : List String → List String
  | [] => [x]
  | y :: ys => if prio y < prio x then x :: y :: ys else y :: insertDesc prio x ys

/-- The helper `BTConfig._getParts` (lines 291-298):
`sorted(self._parts, key=lambda x: self._parts[x].PRIORITY, reverse=True)`
— part names sorted by descending priority, ties keeping discovery
order (Python's sort is stable).  Note: `_setup` never calls it; see
`setupRun`. -/
def getParts (parts : List (String × BTPart)) : List String :=
  (parts.map Prod.fst).foldl (fun acc k => insertDesc (partPriority parts) k acc) []

/-- One execution of `BTConfig._setup` (lines 398-407).  The loop
`for p in self._parts: p.setup()` iterates the dict of parts, which in
Python yields the KEYS — strings.  A `str` has no attribute `setup`, so
with at least one registered part the first iteration raises
AttributeError; no part's setup hook is ever invoked.  Result: the list
of part names whose setup hook ran, and the error if one was raised. -/
def setupRun (parts : List (String × BTPart)) : List String × Option PyError :=
  match parts with
  | [] => ([], none)
  | _ :: _ => ([], some (.attributeError "setup"))

/-- One execution of `BTConfig._finish` (lines 409-419).
`self.result = self.cerebro.run()` stores the engine result; then
`for p in self._parts: p.finish(self.result)` iterates the dict KEYS and
calls `.finish` on a string, raising AttributeError on the first
iteration when any part is registered; no part's finish hook is ever
invoked.  Result: the finish-hook invocations (name and argument), the
stored `self.result`, and the error if one was raised. -/
def finishRun (parts : List (String × BTPart)) (engineResult : List Val) :
    List (String × List Val) × List Val × Option PyError :=
  match parts with
  | [] => ([], engineResult, none)
  | _ :: _ => ([], engineResult, some (.attributeError "finish"))

/-- The mutable attributes of a `BTConfig` instance that the modelled
methods touch (`__init__`, lines 261-282). -/
structure OrchState where
  _filename : Option String
  _config : Option (List Entry)
  _parts : List (String × BTPart)
  mode : Option Int
  config : Option (List Entry)
  stores : List Entry
  datas : List Entry
  result : List Val

/-- File system abstraction for `open` + `json.load`: `none` = file
missing, `some none` = file present but malformed, `some (some d)` =
file present, parsing to `d`. -/
def FileSys : Type := String → Option (Option (List Entry))

/-- One execution of `BTConfig._prepare` (lines 359-396).  After storing
the `configfile` argument into `self._filename` (lines 373-374) and
checking it is set (lines 375-376), line 377 evaluates `self.filename` —
an attribute that no method of the class ever assigns (the instance
attribute is `_filename`), so _prepare raises
`AttributeError('filename')` for every input before opening the file.
The remaining statements of the method (the `json.load`, the
`CONFIG_DEFAULT` merge, the `common.time` stamp, the mode check, the
`_getConfigForMode` call and the per-run resets, lines 377-396) are
unreachable.  Result: the state as mutated so far, and the raised
error. -/
def prepareStep (_fs : FileSys) (st : OrchState)
    (_mode : Option Int) (configfile : Option String) :
    OrchState × Option PyError :=
  let st1 := match configfile with
    | some f => { st with _filename := some f }
    | none => st
  match st1._filename with
  | none => (st1, some (.exn "No config file defined"))
  | some _ => (st1, some (.attributeError "filename"))

/-- Attribute names assigned on `self` anywhere in the class:
`__init__` assigns `_logger`, `_filename`, `_config`, `_parts`,
`_stores`, `_feeds`, `cerebro`, `mode`, `config`, `stores`, `datas`,
`result` (lines 266-278); `_prepare` reassigns `_filename`, `_config`,
`mode`, `config`, `stores`, `datas`, `result`; `_finish` reassigns
`result`.  No method assigns any other attribute name — in particular
never `_result`. -/
def instanceAttrs (_ : OrchState) : List String :=
  ["_logger", "_filename", "_config", "_parts", "_stores", "_feeds",
   "cerebro", "mode", "config", "stores", "datas", "result"]

/-- The final statement of `BTConfig.run` (line 425):
`return self._result`.  Reading an attribute that is not in the
instance's attribute table raises AttributeError. -/
def runReturn (st : OrchState) : Except PyError (List Val) :=
  if (instanceAttrs st).contains "_result" then
    .ok st.result
  else
    .error (.attributeError "_result")

/-- One execution of `BTConfig.run` (lines 421-425): `_prepare`, then
`_setup`, then `_finish`, then `return self._result`; an exception in
any step propagates with the state as mutated so far. -/
def runStep (fs : FileSys) (engineResult : List Val) (st : OrchState)
    (mode : Option Int) (configfile : Option String) :
    OrchState × Except PyError (List Val) :=
  match prepareStep fs st mode configfile with
  | (st1, some e) => (st1, .error e)
  | (st1, none) =>
    match (setupRun st1._parts).2 with
    | some e => (st1, .error e)
    | none =>
      let fr := finishRun st1._parts engineResult
      let st2 := { st1 with result := fr.2.1 }
      match fr.2.2 with
      | some e => (st2, .error e)
      | none => (st2, runReturn st2)

/-- Where a `log` call routes its text. -/
inductive LogSink where
  | logger (level : Int)
  | stdout

/-- One execution of `BTConfig.log` (lines 427-445): with no config
loaded it raises `Exception('No config loaded')` (the spec's
`NotConfigured`); otherwise `self.config['logging']` is read (KeyError
if the key is absent; AttributeError on `.get` if it is not a mapping)
and `.get('enabled', True)` decides, by Python truthiness, between the
structured logger at the given level and plain stdout output. -/
def logCall (st : OrchState) (level : Int) : Except PyError LogSink :=
  match st.config with
  | none => .error (.exn "No config loaded")
  | some c =>
    match lookupD c "logging" with
    | none => .error (.keyError "logging")
    | some (.vdict lg) =>
      if truthy ((lookupD lg "enabled").getD (.vbool true)) then
        .ok (.logger level)
      else
        .ok .stdout
    | some _ => .error (.attributeError "get")

mutual

/-- Well-formedness of a value: every nested mapping has pairwise
distinct keys (true of everything `json.load` produces). -/
def valWFb : Val → Bool
  | .vdict d => dictWFb d
  | _ => true

/-- Well-formedness of a dict: keys pairwise distinct, values
well-formed. -/
def dictWFb : List Entry → Bool
  | [] => true
  | (k, v) :: rest => !hasKeyB rest k && valWFb v && dictWFb rest

end

/-- Distinctness of the top-level keys alone. -/
def keysNodupB : List Entry → Bool
  | [] => true
  | (k, _) :: rest => !hasKeyB rest k && keysNodupB rest

/-- The override sections merged for a recognized mode, in merge order
(all but the final global-config layer of `layersFor`). -/
def secsFor (config : List Entry) (mode : Int) : List (List Entry) :=
  if mode = MODE_LIVE then [secD config "_live"]
  else if mode = MODE_BACKTEST then [secD config "_backtest"]
  else [secD config "_backtest", secD config "_optimize"]

/-- Observation of a successful resolve: the template state after the
call (`none` when the resolver raised). -/
def resolveTemplates (tpl : Templates) (config : List Entry) (mode : Int) :
    Option Templates :=
  match getConfigForMode tpl config mode with
  | .ok (_, tpl2) => some tpl2
  | .error _ => none

/-- Observation of a successful resolve: the value the effective config
holds at one key (`none` when the resolver raised). -/
def resolveLookup (tpl : Templates) (config : List Entry) (mode : Int)
    (k : String) : Option (Option Val) :=
  match getConfigForMode tpl config mode with
  | .ok (eff, _) => some (lookupD eff k)
  | .error _ => none

/-- Example raw config: a key `x` set globally and in both the
`_backtest` and `_optimize` override sections. -/
def cfgA : List Entry :=
  [("x", .vint 1),
   ("_backtest", .vdict [("x", .vint 2)]),
   ("_optimize", .vdict [("x", .vint 3)])]

/-- Example raw config: a key `y` set in both override sections and
nowhere else. -/
def cfgB : List Entry :=
  [("_backtest", .vdict [("y", .vint 2)]),
   ("_optimize", .vdict [("y", .vint 3)])]

/-- Example raw config: one global `cerebro` setting. -/
def cfgC : List Entry :=
  [("cerebro", .vdict [("live", .vbool false)])]

/-- Example loaded config carrying an (empty) `logging` section, as every
config merged with `CONFIG_DEFAULT` does. -/
def cfgLog : List Entry :=
  [("logging", .vdict [])]

/-- Example part registry with two discovered parts. -/
def partsEx : List (String × BTPart) :=
  [("PartBacktrader", ⟨90⟩), ("PartCerebro", ⟨99⟩)]

/-- Example trading-engine run result. -/
def resEx : List Val := [.vint 7]

/-- Example file system: every filename holds a well-formed (empty
mapping) config file. -/
def fsEx : FileSys := fun _ => some (some [])

/-- Example orchestrator state fresh from `__init__` (no mode, no config,
a stored config filename). -/
def stEx : OrchState :=
  { _filename := some "config.json", _config := none, _parts := partsEx,
    mode := none, config := none, stores := [], datas := [], result := [] }

/-- Example orchestrator state with a loaded config. -/
def stLog : OrchState :=
  { stEx with config := some cfgLog }

/-- Is a value a mapping?  (Only mappings are merged recursively; any
later non-mapping value resets the merge chain at its key.) -/
def isDict : Val → Bool
  | .vdict _ => true
  | _ => false

/-- Well-formedness of an optional value. -/
def owfb : Option Val → Bool
  | none => true
  | some v => valWFb v

/-- Size of an optional value (termination measure for the layer-chain
absorption argument). -/
def msz : Option Val → Nat
  | none => 0
  | some v => vsz v

/-- Total size of a list of optional layer values. -/
def lmsz (ls : List (Option Val)) : Nat := (ls.map msz).sum

/-! Basic lemmas about dictionary lookup, update and membership. -/

theorem lookupD_cons (k' : String) (v : Val) (rest : List Entry) (k : String) :
    lookupD ((k', v) :: rest) k = if k' = k then some v else lookupD rest k := rfl

theorem hasKeyB_eq_false_iff (d : List Entry) (k : String) :
    hasKeyB d k = false ↔ lookupD d k = none := by
  induction d with
  | nil => simp [hasKeyB, lookupD]
  | cons e rest ih =>
    obtain ⟨k', v⟩ := e
    by_cases hk : k' = k
    · simp [hasKeyB, lookupD, hk]
    · simp [hasKeyB, lookupD, hk, ih]

theorem lookupD_isSome_of_hasKeyB {d : List Entry} {k : String}
    (h : hasKeyB d k = true) : (lookupD d k).isSome := by
  rcases ho : lookupD d k with _ | w
  · rw [← hasKeyB_eq_false_iff] at ho
    rw [h] at ho
    exact Bool.noConfusion ho
  · rfl

theorem lookupD_updateD_self {d : List Entry} {k : String} {w : Val}
    (h : lookupD d k = some w) (v : Val) :
    lookupD (updateD d k v) k = some v := by
  induction d with
  | nil => simp [lookupD] at h
  | cons e rest ih =>
    obtain ⟨k', v'⟩ := e
    by_cases hk : k' = k
    · simp [updateD, lookupD, hk]
    · rw [lookupD_cons, if_neg hk] at h
      simp only [updateD, if_neg hk]
      rw [lookupD_cons, if_neg hk]
      exact ih h

theorem lookupD_updateD_ne {d : List Entry} {k0 k : String} (hk : k0 ≠ k)
    (v : Val) : lookupD (updateD d k0 v) k = lookupD d k := by
  induction d with
  | nil => rfl
  | cons e rest ih =>
    obtain ⟨k', v'⟩ := e
    by_cases h0 : k' = k0
    · subst h0
      simp [updateD, lookupD_cons, hk]
    · simp [updateD, h0, lookupD_cons, ih]

theorem updateD_map_fst (d : List Entry) (k : String) (v : Val) :
    (updateD d k v).map Prod.fst = d.map Prod.fst := by
  induction d with
  | nil => rfl
  | cons e rest ih =>
    obtain ⟨k', v'⟩ := e
    by_cases h0 : k' = k
    · simp [updateD, h0]
    · simp [updateD, h0, ih]

theorem updateD_self_id {d : List Entry} {k : String} {w : Val}
    (h : lookupD d k = some w) : updateD d k w = d := by
  induction d with
  | nil => rfl
  | cons e rest ih =>
    obtain ⟨k', v'⟩ := e
    by_cases hk : k' = k
    · subst hk
      rw [lookupD_cons, if_pos rfl] at h
      cases h
      simp [updateD]
    · rw [lookupD_cons, if_neg hk] at h
      simp [updateD, hk, ih h]

theorem lookupD_append_of_some {d : List Entry} {k : String} {w : Val}
    (h : lookupD d k = some w) (l : List Entry) :
    lookupD (d ++ l) k = some w := by
  induction d with
  | nil => simp [lookupD] at h
  | cons e rest ih =>
    obtain ⟨k', v'⟩ := e
    by_cases hk : k' = k
    · rw [lookupD_cons, if_pos hk] at h
      simp [lookupD_cons, hk, h]
    · rw [lookupD_cons, if_neg hk] at h
      simp only [List.cons_append]
      rw [lookupD_cons, if_neg hk]
      exact ih h

theorem lookupD_append_of_none {d : List Entry} {k : String}
    (h : lookupD d k = none) (l : List Entry) :
    lookupD (d ++ l) k = lookupD l k := by
  induction d with
  | nil => simp
  | cons e rest ih =>
    obtain ⟨k', v'⟩ := e
    by_cases hk : k' = k
    · rw [lookupD_cons, if_pos hk] at h
      exact Option.noConfusion h
    · rw [lookupD_cons, if_neg hk] at h
      simp only [List.cons_append]
      rw [lookupD_cons, if_neg hk]
      exact ih h

theorem lookupD_eq_none_of_not_mem {d : List Entry} {k : String}
    (h : k ∉ d.map Prod.fst) : lookupD d k = none := by
  induction d with
  | nil => rfl
  | cons e rest ih =>
    obtain ⟨k', v⟩ := e
    simp only [List.map_cons, List.mem_cons] at h
    push_neg at h
    rw [lookupD_cons, if_neg (fun hh => h.1 hh.symm), ih h.2]

theorem hasKeyB_iff_mem (d : List Entry) (k : String) :
    hasKeyB d k = true ↔ k ∈ d.map Prod.fst := by
  induction d with
  | nil => simp [hasKeyB]
  | cons e rest ih =>
    obtain ⟨k', v⟩ := e
    by_cases hk : k' = k
    · simp [hasKeyB, hk]
    · have hne : k ≠ k' := fun h => hk h.symm
      simp [hasKeyB, hk, ih, hne]

/-! Lemmas about `combine`, `chainC` and the fundamental lookup
characterization of `mergeDicts`. -/

theorem combine_none (o : Option Val) : combine o none = o := rfl

theorem combine_some (o : Option Val) (v : Val) :
    combine o (some v) = some (mergeO o v) := rfl

theorem combine_isSome_right (o : Option Val) (v : Val) :
    (combine o (some v)).isSome := rfl

theorem chainC_nil (o : Option Val) : chainC o [] = o := rfl

theorem chainC_cons (o : Option Val) (a : Option Val) (ls : List (Option Val)) :
    chainC o (a :: ls) = chainC (combine o a) ls := rfl

theorem chainC_append (o : Option Val) (l1 l2 : List (Option Val)) :
    chainC o (l1 ++ l2) = chainC (chainC o l1) l2 := by
  simp [chainC, List.foldl_append]

theorem keysNodupB_cons {k : String} {v : Val} {rest : List Entry}
    (h : keysNodupB ((k, v) :: rest) = true) :
    hasKeyB rest k = false ∧ keysNodupB rest = true := by
  simp only [keysNodupB, Bool.and_eq_true, Bool.not_eq_true'] at h
  exact h

/-- Fundamental characterization of the merge: the value a key holds
after `mergeDicts d1 d2` is the pointwise combination of what the key
held in `d1` with what it holds in `d2` (later layer wins; two mappings
merge recursively). -/
theorem lookupD_mergeDicts (d2 : List Entry) (hnd : keysNodupB d2 = true)
    (d1 : List Entry) (k : String) :
    lookupD (mergeDicts d1 d2) k = combine (lookupD d1 k) (lookupD d2 k) := by
  induction d2 generalizing d1 with
  | nil => simp [mergeDicts, lookupD, combine_none]
  | cons e rest ih =>
    obtain ⟨k0, v0⟩ := e
    obtain ⟨hk0, hrest⟩ := keysNodupB_cons hnd
    rw [show mergeDicts d1 ((k0, v0) :: rest)
        = (match lookupD d1 k0 with
           | some v1 => mergeDicts (updateD d1 k0 (mergeVal v1 v0)) rest
           | none => mergeDicts (d1 ++ [(k0, v0)]) rest) from rfl]
    by_cases hk : k0 = k
    · subst hk
      have hrk : lookupD rest k0 = none := (hasKeyB_eq_false_iff rest k0).mp hk0
      rw [lookupD_cons, if_pos rfl]
      rcases h1 : lookupD d1 k0 with _ | v1
      · rw [ih hrest, lookupD_append_of_none h1, lookupD_cons, if_pos rfl,
          hrk, combine_none]
        rfl
      · rw [ih hrest, lookupD_updateD_self h1, hrk, combine_none]
        rfl
    · rw [lookupD_cons, if_neg hk]
      rcases h1 : lookupD d1 k0 with _ | v1
      · rw [ih hrest]
        rcases h2 : lookupD d1 k with _ | w
        · simp [lookupD_append_of_none h2, h2, lookupD, hk]
        · simp [lookupD_append_of_some h2, h2]
      · rw [ih hrest, lookupD_updateD_ne hk]

/-- Iterated form of the lookup characterization: a fold of merges acts
pointwise as the chain of the layers' values at each key. -/
theorem lookupD_foldMerge (ds : List (List Entry))
    (hnd : ∀ d ∈ ds, keysNodupB d = true) (x : List Entry) (k : String) :
    lookupD (foldMerge x ds) k
      = chainC (lookupD x k) (ds.map (fun d => lookupD d k)) := by
  induction ds generalizing x with
  | nil => rfl
  | cons d rest ih =>
    have hd : keysNodupB d = true := hnd d (List.mem_cons_self d rest)
    have hr : ∀ d' ∈ rest, keysNodupB d' = true :=
      fun d' h' => hnd d' (List.mem_cons_of_mem d h')
    show lookupD (foldMerge (mergeDicts x d) rest) k = _
    rw [ih hr, List.map_cons, chainC_cons, lookupD_mergeDicts d hd]

/-! Lemmas about key lists of merges, and about the override filter. -/

theorem keysNodupB_iff (d : List Entry) :
    keysNodupB d = true ↔ (d.map Prod.fst).Nodup := by
  induction d with
  | nil => simp [keysNodupB]
  | cons e rest ih =>
    obtain ⟨k, v⟩ := e
    constructor
    · intro h
      obtain ⟨h1, h2⟩ := keysNodupB_cons h
      refine List.Nodup.cons ?_ (ih.mp h2)
      intro hmem
      rw [(hasKeyB_iff_mem rest k).mpr hmem] at h1
      exact Bool.noConfusion h1
    · intro h
      rw [List.map_cons, List.nodup_cons] at h
      have h1 : hasKeyB rest k = false := by
        rcases hb : hasKeyB rest k with _ | _
        · rfl
        · exact absurd ((hasKeyB_iff_mem rest k).mp hb) h.1
      simp [keysNodupB, h1, ih.mpr h.2]

theorem keysNodupB_merge {d1 d2 : List Entry}
    (h1 : keysNodupB d1 = true) (h2 : keysNodupB d2 = true) :
    keysNodupB (mergeDicts d1 d2) = true := by
  induction d2 generalizing d1 with
  | nil => exact h1
  | cons e rest ih =>
    obtain ⟨k0, v0⟩ := e
    obtain ⟨hk0, hrest⟩ := keysNodupB_cons h2
    rw [show mergeDicts d1 ((k0, v0) :: rest)
        = (match lookupD d1 k0 with
           | some v1 => mergeDicts (updateD d1 k0 (mergeVal v1 v0)) rest
           | none => mergeDicts (d1 ++ [(k0, v0)]) rest) from rfl]
    rcases hl : lookupD d1 k0 with _ | v1
    · refine ih ?_ hrest
      rw [keysNodupB_iff] at h1 ⊢
      rw [List.map_append]
      simp only [List.map_cons, List.map_nil]
      rw [List.nodup_append]
      refine ⟨h1, List.nodup_singleton k0, ?_⟩
      intro a ha hb
      simp only [List.mem_singleton] at hb
      subst hb
      have hfalse : hasKeyB d1 a = false := (hasKeyB_eq_false_iff d1 a).mpr hl
      rw [(hasKeyB_iff_mem d1 a).mpr ha] at hfalse
      exact Bool.noConfusion hfalse
    · refine ih ?_ hrest
      rw [keysNodupB_iff, updateD_map_fst, ← keysNodupB_iff]
      exact h1

theorem hasKeyB_congr {d d' : List Entry}
    (h : d.map Prod.fst = d'.map Prod.fst) (k : String) :
    hasKeyB d k = hasKeyB d' k := by
  rcases hb : hasKeyB d' k with _ | _
  · rw [hasKeyB_eq_false_iff] at hb ⊢
    rw [← hasKeyB_eq_false_iff] at hb ⊢
    rcases hc : hasKeyB d k with _ | _
    · rfl
    · rw [hasKeyB_iff_mem, h, ← hasKeyB_iff_mem] at hc
      rw [hc] at hb
      exact hb
  · rw [hasKeyB_iff_mem] at hb ⊢
    rw [← h] at hb
    exact hb

theorem hasKeyB_append (a b : List Entry) (k : String) :
    hasKeyB (a ++ b) k = (hasKeyB a k || hasKeyB b k) := by
  induction a with
  | nil => simp [hasKeyB]
  | cons e rest ih =>
    obtain ⟨k', v⟩ := e
    by_cases hk : k' = k
    · simp [hasKeyB, hk]
    · simp [hasKeyB, hk, ih]

/-- Keys after a merge: the keys of `d1` in their original order and
positions, followed by the new keys of `d2` in their order. -/
theorem mergeDicts_map_fst (d2 : List Entry) (hnd : keysNodupB d2 = true)
    (d1 : List Entry) :
    (mergeDicts d1 d2).map Prod.fst
      = d1.map Prod.fst
        ++ (d2.map Prod.fst).filter (fun k => !hasKeyB d1 k) := by
  induction d2 generalizing d1 with
  | nil => simp [mergeDicts]
  | cons e rest ih =>
    obtain ⟨k0, v0⟩ := e
    obtain ⟨hk0, hrest⟩ := keysNodupB_cons hnd
    have hk0mem : k0 ∉ rest.map Prod.fst := by
      intro hm
      rw [(hasKeyB_iff_mem rest k0).mpr hm] at hk0
      exact Bool.noConfusion hk0
    rw [show mergeDicts d1 ((k0, v0) :: rest)
        = (match lookupD d1 k0 with
           | some v1 => mergeDicts (updateD d1 k0 (mergeVal v1 v0)) rest
           | none => mergeDicts (d1 ++ [(k0, v0)]) rest) from rfl]
    rcases hl : lookupD d1 k0 with _ | v1
    · have hk0abs : hasKeyB d1 k0 = false := (hasKeyB_eq_false_iff d1 k0).mpr hl
      rw [ih hrest]
      simp only [List.map_append, List.map_cons, List.map_nil,
        List.filter_cons, hk0abs]
      have hcongr : ∀ k ∈ rest.map Prod.fst,
          (!hasKeyB (d1 ++ [(k0, v0)]) k) = (!hasKeyB d1 k) := by
        intro k hk
        have hne : k0 ≠ k := fun h => hk0mem (h ▸ hk)
        rw [hasKeyB_append]
        have : hasKeyB [(k0, v0)] k = false := by simp [hasKeyB, hne]
        rw [this, Bool.or_false]
      rw [List.filter_congr hcongr]
      simp
    · have hk0pres : hasKeyB d1 k0 = true := by
        rcases hb : hasKeyB d1 k0 with _ | _
        · rw [hasKeyB_eq_false_iff] at hb
          rw [hb] at hl
          exact Option.noConfusion hl
        · rfl
      rw [ih hrest, updateD_map_fst]
      simp only [List.map_cons, List.filter_cons, hk0pres]
      have hcongr : ∀ k ∈ rest.map Prod.fst,
          (!hasKeyB (updateD d1 k0 (mergeVal v1 v0)) k) = (!hasKeyB d1 k) := by
        intro k _
        rw [hasKeyB_congr (updateD_map_fst d1 k0 (mergeVal v1 v0)) k]
      rw [List.filter_congr hcongr]
      simp

/-! Well-formedness: supporting lemmas and preservation under merging. -/

theorem dictWFb_cons {k : String} {v : Val} {rest : List Entry}
    (h : dictWFb ((k, v) :: rest) = true) :
    hasKeyB rest k = false ∧ valWFb v = true ∧ dictWFb rest = true := by
  simp only [dictWFb, Bool.and_eq_true, Bool.not_eq_true'] at h
  exact ⟨h.1.1, h.1.2, h.2⟩

theorem keysNodupB_of_dictWFb {d : List Entry} (h : dictWFb d = true) :
    keysNodupB d = true := by
  induction d with
  | nil => rfl
  | cons e rest ih =>
    obtain ⟨k, v⟩ := e
    obtain ⟨h1, _, h3⟩ := dictWFb_cons h
    simp [keysNodupB, h1, ih h3]

theorem valWFb_lookup {d : List Entry} (h : dictWFb d = true) {k : String}
    {v : Val} (hl : lookupD d k = some v) : valWFb v = true := by
  induction d with
  | nil => exact Option.noConfusion hl
  | cons e rest ih =>
    obtain ⟨k', v'⟩ := e
    obtain ⟨_, h2, h3⟩ := dictWFb_cons h
    by_cases hk : k' = k
    · rw [lookupD_cons, if_pos hk] at hl
      cases hl
      exact h2
    · rw [lookupD_cons, if_neg hk] at hl
      exact ih h3 hl

theorem dictWFb_updateD {d : List Entry} (h : dictWFb d = true) (k : String)
    {w : Val} (hw : valWFb w = true) : dictWFb (updateD d k w) = true := by
  induction d with
  | nil => rfl
  | cons e rest ih =>
    obtain ⟨k', v'⟩ := e
    obtain ⟨h1, h2, h3⟩ := dictWFb_cons h
    by_cases hk : k' = k
    · simp only [updateD, if_pos hk]
      simp [dictWFb, h1, hw, h3]
    · simp only [updateD, if_neg hk]
      have hkeys : hasKeyB (updateD rest k w) k' = false := by
        rw [hasKeyB_congr (updateD_map_fst rest k w) k']
        exact h1
      simp [dictWFb, hkeys, h2, ih h3]

theorem dictWFb_append_single {d : List Entry} (h : dictWFb d = true)
    {k : String} (hk : hasKeyB d k = false) {v : Val}
    (hv : valWFb v = true) : dictWFb (d ++ [(k, v)]) = true := by
  induction d with
  | nil => simp [dictWFb, hasKeyB, hv]
  | cons e rest ih =>
    obtain ⟨k', v'⟩ := e
    obtain ⟨h1, h2, h3⟩ := dictWFb_cons h
    rw [show hasKeyB ((k', v') :: rest) k = if k' = k then true else hasKeyB rest k
        from rfl] at hk
    by_cases hkk : k' = k
    · rw [if_pos hkk] at hk
      exact Bool.noConfusion hk
    · rw [if_neg hkk] at hk
      have hkeys : hasKeyB (rest ++ [(k, v)]) k' = false := by
        rw [hasKeyB_append]
        have : hasKeyB [(k, v)] k' = false := by
          simp [hasKeyB]
          exact fun hh => hkk hh.symm
        rw [h1, this]
        rfl
      simp only [List.cons_append]
      simp [dictWFb, hkeys, h2, ih h3 hk]

mutual

/-- Merging two well-formed values yields a well-formed value. -/
theorem valWFb_mergeVal (x y : Val) (hx : valWFb x = true)
    (hy : valWFb y = true) : valWFb (mergeVal x y) = true :=
  match x, y with
  | .vdict d1, .vdict d2 => dictWFb_mergeDicts d1 d2 hx hy
  | .vnone, .vnone => hy
  | .vnone, .vbool _ => hy
  | .vnone, .vint _ => hy
  | .vnone, .vstr _ => hy
  | .vnone, .vlist _ => hy
  | .vnone, .vdict _ => hy
  | .vbool _, .vnone => hy
  | .vbool _, .vbool _ => hy
  | .vbool _, .vint _ => hy
  | .vbool _, .vstr _ => hy
  | .vbool _, .vlist _ => hy
  | .vbool _, .vdict _ => hy
  | .vint _, .vnone => hy
  | .vint _, .vbool _ => hy
  | .vint _, .vint _ => hy
  | .vint _, .vstr _ => hy
  | .vint _, .vlist _ => hy
  | .vint _, .vdict _ => hy
  | .vstr _, .vnone => hy
  | .vstr _, .vbool _ => hy
  | .vstr _, .vint _ => hy
  | .vstr _, .vstr _ => hy
  | .vstr _, .vlist _ => hy
  | .vstr _, .vdict _ => hy
  | .vlist _, .vnone => hy
  | .vlist _, .vbool _ => hy
  | .vlist _, .vint _ => hy
  | .vlist _, .vstr _ => hy
  | .vlist _, .vlist _ => hy
  | .vlist _, .vdict _ => hy
  | .vdict _, .vnone => hy
  | .vdict _, .vbool _ => hy
  | .vdict _, .vint _ => hy
  | .vdict _, .vstr _ => hy
  | .vdict _, .vlist _ => hy

/-- Merging two well-formed dicts yields a well-formed dict. -/
theorem dictWFb_mergeDicts (d1 d2 : List Entry) (h1 : dictWFb d1 = true)
    (h2 : dictWFb d2 = true) : dictWFb (mergeDicts d1 d2) = true :=
  match d2 with
  | [] => h1
  | (k, v) :: rest => by
    obtain ⟨hk, hv, hrest⟩ := dictWFb_cons h2
    rw [show mergeDicts d1 ((k, v) :: rest)
        = (match lookupD d1 k with
           | some v1 => mergeDicts (updateD d1 k (mergeVal v1 v)) rest
           | none => mergeDicts (d1 ++ [(k, v)]) rest) from rfl]
    rcases hl : lookupD d1 k with _ | v1
    · exact dictWFb_mergeDicts (d1 ++ [(k, v)]) rest
        (dictWFb_append_single h1 ((hasKeyB_eq_false_iff d1 k).mpr hl) hv) hrest
    · exact dictWFb_mergeDicts (updateD d1 k (mergeVal v1 v)) rest
        (dictWFb_updateD h1 k
          (valWFb_mergeVal v1 v (valWFb_lookup h1 hl) hv)) hrest

end

/-! Size, filter and extensionality lemmas. -/

theorem vsz_lookup_lt {d : List Entry} {k : String} {v : Val}
    (h : lookupD d k = some v) : vsz v < 1 + dsz d := by
  induction d with
  | nil => exact Option.noConfusion h
  | cons e rest ih =>
    obtain ⟨k', v'⟩ := e
    by_cases hk : k' = k
    · rw [lookupD_cons, if_pos hk] at h
      cases h
      simp only [dsz]
      omega
    · rw [lookupD_cons, if_neg hk] at h
      have := ih h
      simp only [dsz]
      omega

theorem map_fst_filter (p : String → Bool) (d : List Entry) :
    (d.filter (fun e => p e.1)).map Prod.fst = (d.map Prod.fst).filter p := by
  induction d with
  | nil => rfl
  | cons e rest ih =>
    obtain ⟨k, v⟩ := e
    by_cases hp : p k
    · simp [List.filter_cons, hp, ih]
    · simp [List.filter_cons, hp, ih]

theorem lookupD_filter (p : String → Bool) (d : List Entry) (k : String) :
    lookupD (d.filter (fun e => p e.1)) k
      = if p k then lookupD d k else none := by
  induction d with
  | nil => simp [lookupD]
  | cons e rest ih =>
    obtain ⟨k', v⟩ := e
    by_cases hk : k' = k
    · subst hk
      by_cases hp : p k'
      · simp [List.filter_cons, hp, lookupD_cons, ih]
      · simp [List.filter_cons, hp, lookupD_cons, ih]
    · by_cases hp : p k'
      · simp [List.filter_cons, hp, lookupD_cons, hk, ih]
      · simp [List.filter_cons, hp, lookupD_cons, hk, ih]

/-- Two dicts with duplicate-free keys, identical key sequences and
identical lookups are equal. -/
theorem ext_lookupD {d1 d2 : List Entry} (hnd : keysNodupB d1 = true)
    (hkeys : d1.map Prod.fst = d2.map Prod.fst)
    (hlook : ∀ k, lookupD d1 k = lookupD d2 k) : d1 = d2 := by
  induction d1 generalizing d2 with
  | nil =>
    cases d2 with
    | nil => rfl
    | cons e rest => exact List.noConfusion hkeys
  | cons e rest ih =>
    obtain ⟨k, v⟩ := e
    cases d2 with
    | nil => exact List.noConfusion hkeys
    | cons e2 rest2 =>
      obtain ⟨k2, v2⟩ := e2
      simp only [List.map_cons, List.cons.injEq] at hkeys
      obtain ⟨hkk, htail⟩ := hkeys
      subst hkk
      obtain ⟨hk1, hnd1⟩ := keysNodupB_cons hnd
      have hv : v = v2 := by
        have := hlook k
        rw [lookupD_cons, lookupD_cons, if_pos rfl, if_pos rfl] at this
        exact Option.some.inj this
      subst hv
      have htl : ∀ k', lookupD rest k' = lookupD rest2 k' := by
        intro k'
        by_cases hk' : k = k'
        · subst hk'
          rw [(hasKeyB_eq_false_iff rest k).mp hk1]
          have h2 : lookupD rest2 k = none := by
            apply lookupD_eq_none_of_not_mem
            rw [← htail]
            intro hm
            rw [(hasKeyB_iff_mem rest k).mpr hm] at hk1
            exact Bool.noConfusion hk1
          rw [h2]
        · have := hlook k'
          rw [lookupD_cons, lookupD_cons, if_neg hk', if_neg hk'] at this
          exact this
      rw [ih hnd1 htail htl]

/-! Helper lemmas for the layer-chain absorption argument. -/

theorem mergeO_nondict {v : Val} (h : isDict v = false) (o : Option Val) :
    mergeO o v = v := by
  rcases o with _ | u
  · rfl
  · cases u <;> cases v <;> first | rfl | exact Bool.noConfusion h

theorem combine_nondict {v : Val} (h : isDict v = false) (o : Option Val) :
    combine o (some v) = some v := by
  rw [combine_some, mergeO_nondict h]

/-- Any non-mapping layer value resets the chain: everything before it is
irrelevant. -/
theorem chainC_reset {s : Val} (hs : isDict s = false)
    (P Q : List (Option Val)) (x : Option Val) :
    chainC x (P ++ some s :: Q) = chainC (some s) Q := by
  rw [chainC_append, chainC_cons, combine_nondict hs]

theorem lmsz_append_none (A B : List (Option Val)) :
    lmsz (A ++ none :: B) = lmsz (A ++ B) := by
  simp [lmsz, List.map_append, List.sum_append, msz]

theorem hasKeyB_true_iff_isSome (d : List Entry) (k : String) :
    hasKeyB d k = true ↔ (lookupD d k).isSome = true := by
  constructor
  · intro h
    rcases hl : lookupD d k with _ | v
    · rw [← hasKeyB_eq_false_iff] at hl
      rw [h] at hl
      exact Bool.noConfusion hl
    · rfl
  · intro h
    rcases hb : hasKeyB d k with _ | _
    · rw [hasKeyB_eq_false_iff] at hb
      rw [hb] at h
      exact Bool.noConfusion h
    · rfl

theorem combine_isSome_left (u : Val) (b : Option Val) :
    (combine (some u) b).isSome = true := by
  rcases b with _ | v
  · rfl
  · rfl

/-- A chain of mapping layers starting from a mapping is the fold of the
dict merges. -/
theorem chainC_dicts (ds : List (List Entry)) (dx : List Entry) :
    chainC (some (.vdict dx)) (ds.map (fun d => some (Val.vdict d)))
      = some (.vdict (foldMerge dx ds)) := by
  induction ds generalizing dx with
  | nil => rfl
  | cons d rest ih =>
    rw [List.map_cons, chainC_cons, combine_some]
    show chainC (some (Val.vdict (mergeDicts dx d))) _ = _
    rw [ih (mergeDicts dx d)]
    rfl

theorem mergeDicts_append_disjoint (d : List Entry)
    (hnd : keysNodupB d = true) (A : List Entry)
    (hdisj : ∀ k, hasKeyB d k = true → lookupD A k = none) :
    mergeDicts A d = A ++ d := by
  induction d generalizing A with
  | nil => simp [mergeDicts]
  | cons e rest ih =>
    obtain ⟨k, v⟩ := e
    obtain ⟨hk, hrest⟩ := keysNodupB_cons hnd
    have hak : lookupD A k = none := hdisj k (by simp [hasKeyB])
    rw [show mergeDicts A ((k, v) :: rest)
        = (match lookupD A k with
           | some v1 => mergeDicts (updateD A k (mergeVal v1 v)) rest
           | none => mergeDicts (A ++ [(k, v)]) rest) from rfl, hak]
    rw [ih hrest (A ++ [(k, v)]) ?_]
    · simp
    · intro k' hk'
      have hkne : k ≠ k' := by
        intro hkk
        subst hkk
        rw [hk] at hk'
        exact Bool.noConfusion hk'
      have h1 : lookupD A k' = none := by
        apply hdisj
        rw [show hasKeyB ((k, v) :: rest) k'
            = if k = k' then true else hasKeyB rest k' from rfl, if_neg hkne]
        exact hk'
      rw [lookupD_append_of_none h1]
      simp [lookupD, hkne]

theorem mergeDicts_nil_left {d : List Entry} (hnd : keysNodupB d = true) :
    mergeDicts [] d = d := by
  rw [mergeDicts_append_disjoint d hnd [] (fun _ _ => rfl)]
  rfl

theorem dictWFb_foldMerge {x : List Entry} (hx : dictWFb x = true)
    {ds : List (List Entry)} (hds : ∀ d ∈ ds, dictWFb d = true) :
    dictWFb (foldMerge x ds) = true := by
  induction ds generalizing x with
  | nil => exact hx
  | cons d rest ih =>
    show dictWFb (foldMerge (mergeDicts x d) rest) = true
    exact ih (dictWFb_mergeDicts x d hx (hds d (List.mem_cons_self d rest)))
      (fun d' h' => hds d' (List.mem_cons_of_mem d h'))

/-- If every key of every layer is already present in `X`, folding the
layers onto `X` changes no key positions: the key list is unchanged. -/
theorem foldMerge_map_fst (ds : List (List Entry))
    (hnd : ∀ d ∈ ds, keysNodupB d = true) (X : List Entry)
    (hpres : ∀ d ∈ ds, ∀ k, hasKeyB d k = true → (lookupD X k).isSome = true) :
    (foldMerge X ds).map Prod.fst = X.map Prod.fst := by
  induction ds generalizing X with
  | nil => rfl
  | cons d rest ih =>
    have hd : keysNodupB d = true := hnd d (List.mem_cons_self d rest)
    show (foldMerge (mergeDicts X d) rest).map Prod.fst = _
    rw [ih (fun d' h' => hnd d' (List.mem_cons_of_mem d h')) (mergeDicts X d) ?_]
    · rw [mergeDicts_map_fst d hd X]
      have hfilter : (d.map Prod.fst).filter (fun k => !hasKeyB X k) = [] := by
        rw [List.filter_eq_nil_iff]
        intro k hkmem
        have : (lookupD X k).isSome = true :=
          hpres d (List.mem_cons_self d rest) k ((hasKeyB_iff_mem d k).mpr hkmem)
        rw [← hasKeyB_true_iff_isSome] at this
        simp [this]
      rw [hfilter]
      simp
    · intro d' hd' k hk
      rw [lookupD_mergeDicts d hd]
      have : (lookupD X k).isSome = true :=
        hpres d' (List.mem_cons_of_mem d hd') k hk
      rcases hX : lookupD X k with _ | u
      · rw [hX] at this
        exact Bool.noConfusion this
      · exact combine_isSome_left u _

theorem all_some_dict_decomp (ls : List (Option Val)) (h1 : ¬ none ∈ ls)
    (h2 : ∀ s, some s ∈ ls → isDict s = true) :
    ∃ ds : List (List Entry), ls = ds.map (fun d => some (Val.vdict d)) := by
  induction ls with
  | nil => exact ⟨[], rfl⟩
  | cons a t ih =>
    obtain ⟨ds, hds⟩ := ih (fun h => h1 (List.mem_cons_of_mem a h))
      (fun s hs => h2 s (List.mem_cons_of_mem a hs))
    rcases a with _ | s
    · exact absurd (List.mem_cons_self none t) h1
    · have hsd : isDict s = true := h2 s (List.mem_cons_self (some s) t)
      cases s with
      | vdict d => exact ⟨d :: ds, by rw [List.map_cons, hds]⟩
      | vnone => exact Bool.noConfusion hsd
      | vbool b => exact Bool.noConfusion hsd
      | vint n => exact Bool.noConfusion hsd
      | vstr s => exact Bool.noConfusion hsd
      | vlist l => exact Bool.noConfusion hsd

theorem msz_lookup_lt (d : List Entry) (k : String) :
    msz (lookupD d k) < vsz (.vdict d) := by
  rcases hl : lookupD d k with _ | v
  · simp [msz, vsz]
  · have := vsz_lookup_lt hl
    simp only [msz, vsz]
    omega

theorem lmsz_cons (a : Option Val) (ls : List (Option Val)) :
    lmsz (a :: ls) = msz a + lmsz ls := by
  simp [lmsz]

theorem lmsz_map_lookup_le (ds : List (List Entry)) (k : String) :
    lmsz (ds.map (fun d => lookupD d k))
      ≤ lmsz (ds.map (fun d => some (Val.vdict d))) := by
  induction ds with
  | nil => exact Nat.le_refl _
  | cons d rest ih =>
    rw [List.map_cons, List.map_cons, lmsz_cons, lmsz_cons]
    have h1 := msz_lookup_lt d k
    have h2 : msz (some (Val.vdict d)) = vsz (.vdict d) := rfl
    omega

theorem lmsz_map_lookup_lt (ds : List (List Entry)) (hne : ds ≠ [])
    (k : String) :
    lmsz (ds.map (fun d => lookupD d k))
      < lmsz (ds.map (fun d => some (Val.vdict d))) := by
  cases ds with
  | nil => exact absurd rfl hne
  | cons d rest =>
    rw [List.map_cons, List.map_cons, lmsz_cons, lmsz_cons]
    have h1 := msz_lookup_lt d k
    have h2 : msz (some (Val.vdict d)) = vsz (.vdict d) := rfl
    have h3 := lmsz_map_lookup_le rest k
    omega

theorem chainC_isSome_start {o : Option Val} (ho : o.isSome = true)
    (ls : List (Option Val)) : (chainC o ls).isSome = true := by
  induction ls generalizing o with
  | nil => exact ho
  | cons a t ih =>
    rw [chainC_cons]
    rcases o with _ | u
    · exact Bool.noConfusion ho
    · rcases a with _ | v
      · exact ih ho
      · exact ih (combine_isSome_left u (some v))

theorem chainC_isSome_of_mem {ls : List (Option Val)} {v : Val}
    (hmem : some v ∈ ls) (o : Option Val) : (chainC o ls).isSome = true := by
  obtain ⟨A, B, hAB⟩ := List.append_of_mem hmem
  subst hAB
  rw [chainC_append, chainC_cons]
  apply chainC_isSome_start
  rcases chainC o A with _ | u
  · rfl
  · exact combine_isSome_left u (some v)

/-- Core absorption property of the layered merge: re-applying the same
sequence of (well-formed) layers to its own result changes nothing.
Stated pointwise on the optional values one key carries through the
layers; proved by induction on total layer size with an explicit
bound. -/
theorem chainAbsorb_aux (n : Nat) :
    ∀ (ls : List (Option Val)), lmsz ls + ls.length ≤ n →
    (∀ v, some v ∈ ls → valWFb v = true) →
    ∀ (o : Option Val), owfb o = true →
    chainC (chainC o ls) ls = chainC o ls := by
  induction n with
  | zero =>
    intro ls hsz _ o _
    have hls : ls = [] := List.eq_nil_of_length_eq_zero (by omega)
    subst hls
    rfl
  | succ n ihn =>
    intro ls hsz hwf o ho
    by_cases hnone : none ∈ ls
    · obtain ⟨A, B, hAB⟩ := List.append_of_mem hnone
      subst hAB
      have hdrop : ∀ x : Option Val,
          chainC x (A ++ none :: B) = chainC x (A ++ B) := by
        intro x
        rw [chainC_append, chainC_cons, combine_none, ← chainC_append]
      simp only [hdrop]
      refine ihn (A ++ B) ?_ ?_ o ho
      · have h1 := lmsz_append_none A B
        have h2 : (A ++ none :: B).length = (A ++ B).length + 1 := by
          simp only [List.length_append, List.length_cons]
          omega
        omega
      · intro v hv
        refine hwf v ?_
        rw [List.mem_append] at hv
        rcases hv with hv | hv
        · exact List.mem_append_left _ hv
        · exact List.mem_append_right _ (List.mem_cons_of_mem none hv)
    · by_cases hscal : ∃ s, some s ∈ ls ∧ isDict s = false
      · obtain ⟨s, hmem, hs⟩ := hscal
        obtain ⟨P, Q, hPQ⟩ := List.append_of_mem hmem
        subst hPQ
        simp only [chainC_reset hs]
      · have hdicts : ∀ s, some s ∈ ls → isDict s = true := by
          intro s hsmem
          by_contra hc
          exact hscal ⟨s, hsmem, by simpa using hc⟩
        obtain ⟨ds, hds⟩ := all_some_dict_decomp ls hnone hdicts
        subst hds
        cases ds with
        | nil => rfl
        | cons d1 rest =>
          have hwfd : ∀ d ∈ (d1 :: rest), dictWFb d = true := by
            intro d hd
            have := hwf (Val.vdict d)
              (List.mem_map_of_mem (fun d => some (Val.vdict d)) hd)
            simpa [valWFb] using this
          have hlnd : ∀ d ∈ (d1 :: rest), keysNodupB d = true :=
            fun d hd => keysNodupB_of_dictWFb (hwfd d hd)
          have hnorm : ∃ dx, dictWFb dx = true ∧
              chainC o ((d1 :: rest).map (fun d => some (Val.vdict d)))
                = chainC (some (Val.vdict dx))
                    ((d1 :: rest).map (fun d => some (Val.vdict d))) := by
            have hd1 : keysNodupB d1 = true :=
              hlnd d1 (List.mem_cons_self d1 rest)
            have hstartnil : combine none (some (Val.vdict d1))
                = combine (some (Val.vdict [])) (some (Val.vdict d1)) := by
              rw [combine_some, combine_some]
              show some (Val.vdict d1) = some (Val.vdict (mergeDicts [] d1))
              rw [mergeDicts_nil_left hd1]
            rcases o with _ | u
            · refine ⟨[], rfl, ?_⟩
              rw [List.map_cons, chainC_cons, chainC_cons, hstartnil]
            · cases u with
              | vdict du =>
                exact ⟨du, by simpa [owfb, valWFb] using ho, rfl⟩
              | vnone =>
                refine ⟨[], rfl, ?_⟩
                rw [List.map_cons, chainC_cons, chainC_cons, ← hstartnil]
                rfl
              | vbool b =>
                refine ⟨[], rfl, ?_⟩
                rw [List.map_cons, chainC_cons, chainC_cons, ← hstartnil]
                rfl
              | vint m =>
                refine ⟨[], rfl, ?_⟩
                rw [List.map_cons, chainC_cons, chainC_cons, ← hstartnil]
                rfl
              | vstr s =>
                refine ⟨[], rfl, ?_⟩
                rw [List.map_cons, chainC_cons, chainC_cons, ← hstartnil]
                rfl
              | vlist l =>
                refine ⟨[], rfl, ?_⟩
                rw [List.map_cons, chainC_cons, chainC_cons, ← hstartnil]
                rfl
          obtain ⟨dx, hdx, hilo⟩ := hnorm
          rw [hilo, chainC_dicts, chainC_dicts]
          have hD : dictWFb (foldMerge dx (d1 :: rest)) = true :=
            dictWFb_foldMerge hdx hwfd
          have hpres : ∀ d ∈ (d1 :: rest), ∀ k, hasKeyB d k = true →
              (lookupD (foldMerge dx (d1 :: rest)) k).isSome = true := by
            intro d hd k hk
            rw [lookupD_foldMerge (d1 :: rest) hlnd dx k]
            have hsome : (lookupD d k).isSome = true :=
              (hasKeyB_true_iff_isSome d k).mp hk
            rcases hl : lookupD d k with _ | v
            · rw [hl] at hsome
              exact Bool.noConfusion hsome
            · have hmm : some v ∈ (d1 :: rest).map (fun d => lookupD d k) := by
                rw [← hl]
                exact List.mem_map_of_mem (fun d => lookupD d k) hd
              exact chainC_isSome_of_mem hmm (lookupD dx k)
          have hcore : foldMerge dx (d1 :: rest)
              = foldMerge (foldMerge dx (d1 :: rest)) (d1 :: rest) := by
            apply ext_lookupD (keysNodupB_of_dictWFb hD)
            · exact (foldMerge_map_fst (d1 :: rest) hlnd
                (foldMerge dx (d1 :: rest)) hpres).symm
            · intro k
              rw [lookupD_foldMerge (d1 :: rest) hlnd (foldMerge dx (d1 :: rest)) k,
                lookupD_foldMerge (d1 :: rest) hlnd dx k]
              refine (ihn ((d1 :: rest).map (fun d => lookupD d k)) ?_ ?_
                (lookupD dx k) ?_).symm
              · have h1 := lmsz_map_lookup_lt (d1 :: rest) (by simp) k
                have h2 : ((d1 :: rest).map (fun d => lookupD d k)).length
                    = ((d1 :: rest).map (fun d => some (Val.vdict d))).length := by
                  simp
                have h3 : lmsz ((d1 :: rest).map (fun d => some (Val.vdict d)))
                    + ((d1 :: rest).map (fun d => some (Val.vdict d))).length
                    ≤ n + 1 := hsz
                omega
              · intro v hv
                rw [List.mem_map] at hv
                obtain ⟨d, hd, hlk⟩ := hv
                exact valWFb_lookup (hwfd d hd) hlk
              · rcases hx : lookupD dx k with _ | v
                · rfl
                · exact valWFb_lookup hdx hx
          rw [← hcore]

/-- Re-applying the same well-formed layers to a chain's own result
changes nothing. -/
theorem chainAbsorb (ls : List (Option Val))
    (hwf : ∀ v, some v ∈ ls → valWFb v = true) (o : Option Val)
    (ho : owfb o = true) : chainC (chainC o ls) ls = chainC o ls :=
  chainAbsorb_aux (lmsz ls + ls.length) ls (Nat.le_refl _) hwf o ho

/-! From the pointwise absorption to the resolver. -/

theorem getSection_ok {config : List Entry} {name : String}
    (h : sectionOkB config name = true) :
    getSection config name = .ok (secD config name) := by
  unfold sectionOkB at h
  unfold getSection secD
  rcases hl : lookupD config name with _ | v
  · rfl
  · rw [hl] at h
    cases v with
    | vdict d => rfl
    | vnone => exact Bool.noConfusion h
    | vbool b => exact Bool.noConfusion h
    | vint n => exact Bool.noConfusion h
    | vstr s => exact Bool.noConfusion h
    | vlist l => exact Bool.noConfusion h

theorem keysNodupB_filter (p : String → Bool) {d : List Entry}
    (h : keysNodupB d = true) :
    keysNodupB (d.filter (fun e => p e.1)) = true := by
  rw [keysNodupB_iff] at h ⊢
  rw [map_fst_filter]
  exact List.Nodup.filter p h

theorem filter_idem (p : String → Bool) (l : List String) :
    (l.filter p).filter p = l.filter p := by
  rw [List.filter_filter]
  apply List.filter_congr
  intro a _
  exact Bool.and_self (p a)

/-- Folding layers onto a dict that already holds every non-override key
of the layers appends only override-named keys. -/
theorem foldMerge_junk (L : List (List Entry))
    (hnd : ∀ d ∈ L, keysNodupB d = true) :
    ∀ (X : List Entry),
    (∀ d ∈ L, ∀ k, hasKeyB d k = true → isOvName k = false →
      (lookupD X k).isSome = true) →
    ∃ junk, (foldMerge X L).map Prod.fst = X.map Prod.fst ++ junk
      ∧ ∀ k ∈ junk, isOvName k = true := by
  induction L with
  | nil => exact fun X _ => ⟨[], by simp [foldMerge], by simp⟩
  | cons d rest ih =>
    intro X hpres
    have hd : keysNodupB d = true := hnd d (List.mem_cons_self d rest)
    have hside : ∀ d' ∈ rest, ∀ k, hasKeyB d' k = true → isOvName k = false →
        (lookupD (mergeDicts X d) k).isSome = true := by
      intro d' h' k hk hov
      rw [lookupD_mergeDicts d hd]
      have := hpres d' (List.mem_cons_of_mem d h') k hk hov
      rcases hX : lookupD X k with _ | u
      · rw [hX] at this
        exact Bool.noConfusion this
      · exact combine_isSome_left u _
    obtain ⟨junk2, hj2, hj2ov⟩ :=
      ih (fun d' h' => hnd d' (List.mem_cons_of_mem d h')) (mergeDicts X d) hside
    refine ⟨(d.map Prod.fst).filter (fun k => !hasKeyB X k) ++ junk2, ?_, ?_⟩
    · show (foldMerge (mergeDicts X d) rest).map Prod.fst = _
      rw [hj2, mergeDicts_map_fst d hd X, List.append_assoc]
    · intro k hk
      rw [List.mem_append] at hk
      rcases hk with hk | hk
      · rw [List.mem_filter] at hk
        obtain ⟨hkmem, hknot⟩ := hk
        rcases hov : isOvName k with _ | _
        · have := hpres d (List.mem_cons_self d rest) k
            ((hasKeyB_iff_mem d k).mpr hkmem) hov
          rw [← hasKeyB_true_iff_isSome] at this
          rw [this] at hknot
          exact Bool.noConfusion hknot
        · rfl
      · exact hj2ov k hk

theorem lookupD_eraseOverrides (d : List Entry) (k : String) :
    lookupD (eraseOverrides d) k
      = if isOvName k = true then none else lookupD d k := by
  unfold eraseOverrides
  rw [lookupD_filter (fun k => !isOvName k) d k]
  rcases h : isOvName k with _ | _
  · simp
  · simp

theorem eraseOverrides_map_fst (d : List Entry) :
    (eraseOverrides d).map Prod.fst
      = (d.map Prod.fst).filter (fun k => !isOvName k) := by
  unfold eraseOverrides
  exact map_fst_filter (fun k => !isOvName k) d

theorem keysNodupB_eraseOverrides {d : List Entry}
    (h : keysNodupB d = true) : keysNodupB (eraseOverrides d) = true := by
  unfold eraseOverrides
  exact keysNodupB_filter (fun k => !isOvName k) h

/-- Absorption at the resolver level: applying the resolver's layer
sequence (override sections, then the global config) to an effective
config it already produced — and deleting the override sections again —
reproduces that effective config exactly.  This is the in-place template
mutation of `_getConfigForMode` feeding its own output back in as the
template of the next call. -/
theorem resolveAbsorb (T : List Entry) (secs : List (List Entry))
    (raw : List Entry) (hT : dictWFb T = true)
    (hsecs : ∀ s ∈ secs, dictWFb s = true) (hraw : dictWFb raw = true) :
    eraseOverrides (foldMerge
      (eraseOverrides (foldMerge T (secs ++ [raw]))) (secs ++ [raw]))
      = eraseOverrides (foldMerge T (secs ++ [raw])) := by
  have hL : ∀ d ∈ secs ++ [raw], dictWFb d = true := by
    intro d hd
    rw [List.mem_append] at hd
    rcases hd with hd | hd
    · exact hsecs d hd
    · rw [List.mem_singleton] at hd
      subst hd
      exact hraw
  have hLnd : ∀ d ∈ secs ++ [raw], keysNodupB d = true :=
    fun d hd => keysNodupB_of_dictWFb (hL d hd)
  have hM : dictWFb (foldMerge T (secs ++ [raw])) = true :=
    dictWFb_foldMerge hT hL
  have hMnd : keysNodupB (foldMerge T (secs ++ [raw])) = true :=
    keysNodupB_of_dictWFb hM
  have hRlook : ∀ k, isOvName k = false →
      lookupD (eraseOverrides (foldMerge T (secs ++ [raw]))) k
        = lookupD (foldMerge T (secs ++ [raw])) k := by
    intro k hov
    rw [lookupD_eraseOverrides, if_neg (by simp [hov])]
  have hRov : ∀ k, isOvName k = true →
      lookupD (eraseOverrides (foldMerge T (secs ++ [raw]))) k = none := by
    intro k hov
    rw [lookupD_eraseOverrides, if_pos hov]
  have hpres : ∀ d ∈ secs ++ [raw], ∀ k, hasKeyB d k = true →
      isOvName k = false →
      (lookupD (eraseOverrides (foldMerge T (secs ++ [raw]))) k).isSome
        = true := by
    intro d hd k hk hov
    rw [hRlook k hov, lookupD_foldMerge (secs ++ [raw]) hLnd T k]
    have hsome : (lookupD d k).isSome = true :=
      (hasKeyB_true_iff_isSome d k).mp hk
    rcases hl : lookupD d k with _ | v
    · rw [hl] at hsome
      exact Bool.noConfusion hsome
    · have hmm : some v ∈ (secs ++ [raw]).map (fun d => lookupD d k) := by
        rw [← hl]
        exact List.mem_map_of_mem (fun d => lookupD d k) hd
      exact chainC_isSome_of_mem hmm (lookupD T k)
  obtain ⟨junk, hjunk, hjunkov⟩ :=
    foldMerge_junk (secs ++ [raw]) hLnd
      (eraseOverrides (foldMerge T (secs ++ [raw]))) hpres
  refine (ext_lookupD ?_ ?_ ?_).symm
  · exact keysNodupB_eraseOverrides hMnd
  · have hjnil : junk.filter (fun k => !isOvName k) = [] := by
      rw [List.filter_eq_nil_iff]
      intro k hk
      rw [hjunkov k hk]
      simp
    rw [eraseOverrides_map_fst
      (foldMerge (eraseOverrides (foldMerge T (secs ++ [raw]))) (secs ++ [raw])),
      hjunk, eraseOverrides_map_fst (foldMerge T (secs ++ [raw])),
      List.filter_append,
      filter_idem (fun k => !isOvName k)
        ((foldMerge T (secs ++ [raw])).map Prod.fst),
      hjnil, List.append_nil]
  · intro k
    rw [lookupD_eraseOverrides
      (foldMerge (eraseOverrides (foldMerge T (secs ++ [raw]))) (secs ++ [raw])) k]
    rcases hov : isOvName k with _ | _
    · rw [if_neg (by simp), hRlook k hov,
        lookupD_foldMerge (secs ++ [raw]) hLnd,
        lookupD_foldMerge (secs ++ [raw]) hLnd, hRlook k hov,
        lookupD_foldMerge (secs ++ [raw]) hLnd]
      refine (chainAbsorb ((secs ++ [raw]).map (fun d => lookupD d k)) ?_
        (lookupD T k) ?_).symm
      · intro v hv
        rw [List.mem_map] at hv
        obtain ⟨d, hd, hlk⟩ := hv
        exact valWFb_lookup (hL d hd) hlk
      · rcases hx : lookupD T k with _ | v
        · rfl
        · exact valWFb_lookup hT hx
    · rw [if_pos rfl, hRov k hov]

/-! Bridge lemmas for the resolver. -/

theorem sectionsOk_split {config : List Entry} (h : sectionsOk config = true) :
    sectionOkB config "_live" = true ∧ sectionOkB config "_backtest" = true
      ∧ sectionOkB config "_optimize" = true := by
  unfold sectionsOk at h
  simp only [Bool.and_eq_true] at h
  exact ⟨h.1.1, h.1.2, h.2⟩

theorem keysNodupB_secD {config : List Entry} (h : dictWFb config = true)
    (name : String) : keysNodupB (secD config name) = true := by
  unfold secD
  rcases hl : lookupD config name with _ | v
  · rfl
  · cases v with
    | vdict d =>
      have := valWFb_lookup h hl
      exact keysNodupB_of_dictWFb (by simpa [valWFb] using this)
    | vnone => rfl
    | vbool b => rfl
    | vint n => rfl
    | vstr s => rfl
    | vlist l => rfl

theorem dictWFb_secD {config : List Entry} (h : dictWFb config = true)
    (name : String) : dictWFb (secD config name) = true := by
  unfold secD
  rcases hl : lookupD config name with _ | v
  · rfl
  · cases v with
    | vdict d =>
      have := valWFb_lookup h hl
      simpa [valWFb] using this
    | vnone => rfl
    | vbool b => rfl
    | vint n => rfl
    | vstr s => rfl
    | vlist l => rfl

theorem layersFor_eq (config : List Entry) (mode : Int) :
    layersFor config mode = secsFor config mode ++ [config] := by
  unfold layersFor secsFor
  split_ifs <;> rfl

theorem layersFor_nodup {config : List Entry} (h : dictWFb config = true)
    (mode : Int) : ∀ d ∈ layersFor config mode, keysNodupB d = true := by
  intro d hd
  unfold layersFor at hd
  split_ifs at hd <;>
    simp only [List.mem_cons, List.mem_singleton, List.not_mem_nil,
      or_false] at hd
  · rcases hd with hd | hd
    · subst hd
      exact keysNodupB_secD h "_live"
    · subst hd
      exact keysNodupB_of_dictWFb h
  · rcases hd with hd | hd
    · subst hd
      exact keysNodupB_secD h "_backtest"
    · subst hd
      exact keysNodupB_of_dictWFb h
  · rcases hd with hd | hd | hd
    · subst hd
      exact keysNodupB_secD h "_backtest"
    · subst hd
      exact keysNodupB_secD h "_optimize"
    · subst hd
      exact keysNodupB_of_dictWFb h

theorem secsFor_wf {config : List Entry} (h : dictWFb config = true)
    (mode : Int) : ∀ d ∈ secsFor config mode, dictWFb d = true := by
  intro d hd
  unfold secsFor at hd
  split_ifs at hd <;>
    simp only [List.mem_cons, List.mem_singleton, List.not_mem_nil,
      or_false] at hd
  · subst hd
    exact dictWFb_secD h "_live"
  · subst hd
    exact dictWFb_secD h "_backtest"
  · rcases hd with hd | hd
    · subst hd
      exact dictWFb_secD h "_backtest"
    · subst hd
      exact dictWFb_secD h "_optimize"

/-- Successful unfolding of the resolver for a recognized mode: the
effective config is the override-section layers and then the global
config merged onto the mode template, with the override keys deleted;
and the template for the mode is replaced by that result. -/
theorem getConfigForMode_eq (tpl : Templates) (config : List Entry)
    (mode : Int)
    (hm : mode = MODE_LIVE ∨ mode = MODE_BACKTEST ∨ mode = MODE_OPTIMIZE)
    (hsec : sectionsOk config = true) :
    getConfigForMode tpl config mode
      = .ok (eraseOverrides (foldMerge (templFor tpl mode) (layersFor config mode)),
          templUpdate tpl mode
            (eraseOverrides (foldMerge (templFor tpl mode) (layersFor config mode)))) := by
  obtain ⟨h1, h2, h3⟩ := sectionsOk_split hsec
  rcases hm with hm | hm | hm <;> subst hm
  · unfold getConfigForMode
    rw [if_pos rfl, getSection_ok h1]
    rfl
  · unfold getConfigForMode
    rw [if_neg (by decide), if_pos rfl, getSection_ok h2]
    rfl
  · unfold getConfigForMode
    rw [if_neg (by decide), if_neg (by decide), if_pos rfl,
      getSection_ok h2, getSection_ok h3]
    rfl

theorem templFor_templUpdate (tpl : Templates) (mode : Int)
    (hm : mode = MODE_LIVE ∨ mode = MODE_BACKTEST ∨ mode = MODE_OPTIMIZE)
    (res : List Entry) : templFor (templUpdate tpl mode res) mode = res := by
  rcases hm with hm | hm | hm <;> subst hm <;> rfl

theorem templUpdate_again (tpl : Templates) (mode : Int)
    (res : List Entry) :
    templUpdate (templUpdate tpl mode res) mode res
      = templUpdate tpl mode res := by
  unfold templUpdate
  split_ifs <;> rfl

/-! Claim theorems. -/

/-- C1: for every raw config (well-formed, with mapping override
sections) and every recognized mode (LIVE, BACKTEST, OPTIMIZE), the
resolver succeeds and the effective configuration applies the layers with
deterministic precedence mode template < mode override section(s) <
global config: at every non-override key the result is the pointwise
chain of the layers' values, in which a later layer's value wins, two
mappings merge key-by-key recursively, and a later non-mapping value
replaces the earlier value wholesale (the semantics of `combine` /
`mergeVal`). -/
theorem c1_merge_precedence (tpl : Templates) (config : List Entry)
    (mode : Int)
    (hm : mode = MODE_LIVE ∨ mode = MODE_BACKTEST ∨ mode = MODE_OPTIMIZE)
    (hsec : sectionsOk config = true) (hcfg : dictWFb config = true) :
    ∃ eff tpl2, getConfigForMode tpl config mode = .ok (eff, tpl2)
      ∧ ∀ k, isOvName k = false →
          lookupD eff k
            = chainC (lookupD (templFor tpl mode) k)
                ((layersFor config mode).map (fun d => lookupD d k)) := by
  refine ⟨_, _, getConfigForMode_eq tpl config mode hm hsec, ?_⟩
  intro k hov
  rw [lookupD_eraseOverrides, if_neg (by simp [hov]),
    lookupD_foldMerge (layersFor config mode) (layersFor_nodup hcfg mode)]

/-- Witness for C1 at a concrete input: BACKTEST mode on `cfgC`. -/
theorem c1_merge_precedence_witness :
    ((MODE_BACKTEST = MODE_LIVE ∨ MODE_BACKTEST = MODE_BACKTEST
        ∨ MODE_BACKTEST = MODE_OPTIMIZE)
      ∧ sectionsOk cfgC = true ∧ dictWFb cfgC = true)
    ∧ (∃ eff tpl2,
        getConfigForMode initialTemplates cfgC MODE_BACKTEST = .ok (eff, tpl2)
       ∧ ∀ k, isOvName k = false →
          lookupD eff k
            = chainC (lookupD (templFor initialTemplates MODE_BACKTEST) k)
                ((layersFor cfgC MODE_BACKTEST).map (fun d => lookupD d k))) :=
  ⟨⟨Or.inr (Or.inl rfl), rfl, rfl⟩,
    c1_merge_precedence initialTemplates cfgC MODE_BACKTEST
      (Or.inr (Or.inl rfl)) rfl rfl⟩

/-- C2: whenever the resolver returns an effective configuration — for
any template state, raw config and mode — none of the three
override-section keys `_live`, `_backtest`, `_optimize` appears as a
top-level key of the result. -/
theorem c2_no_override_sections (tpl : Templates) (config : List Entry)
    (mode : Int) (eff : List Entry) (tpl2 : Templates)
    (h : getConfigForMode tpl config mode = .ok (eff, tpl2)) :
    lookupD eff "_live" = none ∧ lookupD eff "_backtest" = none
      ∧ lookupD eff "_optimize" = none := by
  have hov : ∀ k, isOvName k = true → lookupD eff k = none := by
    intro k hk
    unfold getConfigForMode at h
    split_ifs at h
    · rcases hg : getSection config "_live" with e | s
      · rw [hg] at h
        exact Except.noConfusion h
      · rw [hg] at h
        simp only [Except.ok.injEq, Prod.mk.injEq] at h
        obtain ⟨he, -⟩ := h
        rw [← he, lookupD_eraseOverrides, if_pos hk]
    · rcases hg : getSection config "_backtest" with e | s
      · rw [hg] at h
        exact Except.noConfusion h
      · rw [hg] at h
        simp only [Except.ok.injEq, Prod.mk.injEq] at h
        obtain ⟨he, -⟩ := h
        rw [← he, lookupD_eraseOverrides, if_pos hk]
    · rcases hg : getSection config "_backtest" with e | sb
      · rw [hg] at h
        exact Except.noConfusion h
      · rw [hg] at h
        rcases hg2 : getSection config "_optimize" with e | so
        · rw [hg2] at h
          exact Except.noConfusion h
        · rw [hg2] at h
          simp only [Except.ok.injEq, Prod.mk.injEq] at h
          obtain ⟨he, -⟩ := h
          rw [← he, lookupD_eraseOverrides, if_pos hk]
  exact ⟨hov _ rfl, hov _ rfl, hov _ rfl⟩

/-- Witness for C2 at a concrete input: OPTIMIZE mode on `cfgA`, whose
override sections are nonempty. -/
theorem c2_no_override_sections_witness :
    (∃ eff tpl2,
      getConfigForMode initialTemplates cfgA MODE_OPTIMIZE = .ok (eff, tpl2))
    ∧ (lookupD (eraseOverrides (foldMerge (templFor initialTemplates MODE_OPTIMIZE)
          (layersFor cfgA MODE_OPTIMIZE))) "_live" = none
      ∧ lookupD (eraseOverrides (foldMerge (templFor initialTemplates MODE_OPTIMIZE)
          (layersFor cfgA MODE_OPTIMIZE))) "_backtest" = none
      ∧ lookupD (eraseOverrides (foldMerge (templFor initialTemplates MODE_OPTIMIZE)
          (layersFor cfgA MODE_OPTIMIZE))) "_optimize" = none) := by
  have heq := getConfigForMode_eq initialTemplates cfgA MODE_OPTIMIZE
    (Or.inr (Or.inr rfl)) rfl
  exact ⟨⟨_, _, heq⟩,
    c2_no_override_sections initialTemplates cfgA MODE_OPTIMIZE _ _ heq⟩

/-- C5 counterexample: the resolver is not pure.  Resolving LIVE mode on
the config `cfgC` succeeds, but the module-level template state after
the call differs from the initial templates: the merge is performed in
place on `CONFIG_LIVE` (line 340 aliases, not copies, the template), so
the stored live template has become the returned effective config (its
`_live` key, for one, is deleted). -/
theorem c5_resolver_impure_counterexample :
    (resolveTemplates initialTemplates cfgC MODE_LIVE).isSome = true
    ∧ resolveTemplates initialTemplates cfgC MODE_LIVE
        ≠ some initialTemplates := by
  constructor
  · rfl
  · intro h
    have obs : (resolveTemplates initialTemplates cfgC MODE_LIVE).map
        (fun t => hasKeyB t.live "_live") = some false := rfl
    rw [h] at obs
    simp only [Option.map_some'] at obs
    have hx : hasKeyB initialTemplates.live "_live" = false :=
      Option.some.inj obs
    rw [show hasKeyB initialTemplates.live "_live" = true from rfl] at hx
    exact Bool.noConfusion hx

/-- C5 amended: the resolver is deterministic but not pure.  For every
recognized mode and well-formed raw config (with mapping override
sections and a well-formed current template), resolving succeeds, the
mode's stored template is replaced by the returned effective
configuration, and resolving a second time with the same mode and raw
config — now starting from the mutated template — yields the same
effective configuration and the same template state. -/
theorem c5_resolve_mutates_template_resolve_twice_same
    (tpl : Templates) (config : List Entry) (mode : Int)
    (hm : mode = MODE_LIVE ∨ mode = MODE_BACKTEST ∨ mode = MODE_OPTIMIZE)
    (hsec : sectionsOk config = true) (hcfg : dictWFb config = true)
    (htpl : dictWFb (templFor tpl mode) = true) :
    ∃ res tpl2, getConfigForMode tpl config mode = .ok (res, tpl2)
      ∧ templFor tpl2 mode = res
      ∧ getConfigForMode tpl2 config mode = .ok (res, tpl2) := by
  have heq := getConfigForMode_eq tpl config mode hm hsec
  refine ⟨_, _, heq, templFor_templUpdate tpl mode hm _, ?_⟩
  have heq2 := getConfigForMode_eq
    (templUpdate tpl mode
      (eraseOverrides (foldMerge (templFor tpl mode) (layersFor config mode))))
    config mode hm hsec
  rw [heq2, templFor_templUpdate tpl mode hm]
  have habsorb : eraseOverrides (foldMerge
      (eraseOverrides (foldMerge (templFor tpl mode) (layersFor config mode)))
      (layersFor config mode))
      = eraseOverrides (foldMerge (templFor tpl mode) (layersFor config mode)) := by
    rw [layersFor_eq config mode]
    exact resolveAbsorb (templFor tpl mode) (secsFor config mode) config htpl
      (secsFor_wf hcfg mode) hcfg
  rw [habsorb, templUpdate_again]

/-- Witness for the amended C5 at a concrete input: LIVE mode on
`cfgC` from the pristine templates. -/
theorem c5_resolve_mutates_template_witness :
    ((MODE_LIVE = MODE_LIVE ∨ MODE_LIVE = MODE_BACKTEST
        ∨ MODE_LIVE = MODE_OPTIMIZE)
      ∧ sectionsOk cfgC = true ∧ dictWFb cfgC = true
      ∧ dictWFb (templFor initialTemplates MODE_LIVE) = true)
    ∧ (∃ res tpl2,
        getConfigForMode initialTemplates cfgC MODE_LIVE = .ok (res, tpl2)
        ∧ templFor tpl2 MODE_LIVE = res
        ∧ getConfigForMode tpl2 cfgC MODE_LIVE = .ok (res, tpl2)) :=
  ⟨⟨Or.inl rfl, rfl, rfl, rfl⟩,
    c5_resolve_mutates_template_resolve_twice_same initialTemplates cfgC
      MODE_LIVE (Or.inl rfl) rfl rfl rfl⟩

/-- C6 counterexample: in OPTIMIZE mode, for the key `x` present in both
override sections of `cfgA` (as 2 in `_backtest` and 3 in `_optimize`)
and also at top level (as 1), the effective configuration holds the
global value 1, not the `_optimize` value 3 — the global config is
merged on top of the override sections, so the claim as stated fails. -/
theorem c6_optimize_global_wins_counterexample :
    resolveLookup initialTemplates cfgA MODE_OPTIMIZE "x"
        = some (some (.vint 1))
    ∧ resolveLookup initialTemplates cfgA MODE_OPTIMIZE "x"
        ≠ some (some (.vint 3)) := by
  constructor
  · rfl
  · intro h
    rw [show resolveLookup initialTemplates cfgA MODE_OPTIMIZE "x"
        = some (some (.vint 1)) from rfl] at h
    exact absurd (Val.vint.inj (Option.some.inj (Option.some.inj h)))
      (by decide)

/-- C6 amended: in OPTIMIZE mode the resolver merges `_backtest` and
then `_optimize` onto the BACKTEST-derived template, so for a key
present in both override sections whose `_optimize` value is a
non-mapping, the `_optimize` value wins over the `_backtest` value —
and it survives into the effective configuration provided the key is
not also set at top level of the raw config (the global layer would win
there) and is not an override-section name. -/
theorem c6_optimize_override_wins (tpl : Templates) (config : List Entry)
    (k : String) (vb vo : Val)
    (hsec : sectionsOk config = true) (hcfg : dictWFb config = true)
    (hb : lookupD (secD config "_backtest") k = some vb)
    (hvo : lookupD (secD config "_optimize") k = some vo)
    (hnodict : isDict vo = false)
    (hglob : lookupD config k = none)
    (hov : isOvName k = false) :
    ∃ eff tpl2, getConfigForMode tpl config MODE_OPTIMIZE = .ok (eff, tpl2)
      ∧ lookupD eff k = some vo := by
  have hm : MODE_OPTIMIZE = MODE_LIVE ∨ MODE_OPTIMIZE = MODE_BACKTEST
      ∨ MODE_OPTIMIZE = MODE_OPTIMIZE := Or.inr (Or.inr rfl)
  refine ⟨_, _, getConfigForMode_eq tpl config MODE_OPTIMIZE hm hsec, ?_⟩
  rw [lookupD_eraseOverrides, if_neg (by simp [hov]),
    lookupD_foldMerge (layersFor config MODE_OPTIMIZE)
      (layersFor_nodup hcfg MODE_OPTIMIZE)]
  show chainC (lookupD (templFor tpl MODE_OPTIMIZE) k)
      ([secD config "_backtest", secD config "_optimize", config].map
        (fun d => lookupD d k)) = some vo
  rw [List.map_cons, List.map_cons, List.map_cons, List.map_nil,
    chainC_cons, chainC_cons, chainC_cons, chainC_nil,
    hb, hvo, hglob, combine_none, combine_nondict hnodict]

/-- Witness for the amended C6 at a concrete input: the key `y` of
`cfgB`, set to 2 in `_backtest` and 3 in `_optimize` and absent at top
level, resolves to 3. -/
theorem c6_optimize_override_wins_witness :
    (sectionsOk cfgB = true ∧ dictWFb cfgB = true
      ∧ lookupD (secD cfgB "_backtest") "y" = some (.vint 2)
      ∧ lookupD (secD cfgB "_optimize") "y" = some (.vint 3)
      ∧ isDict (Val.vint 3) = false
      ∧ lookupD cfgB "y" = none
      ∧ isOvName "y" = false)
    ∧ (∃ eff tpl2,
        getConfigForMode initialTemplates cfgB MODE_OPTIMIZE = .ok (eff, tpl2)
        ∧ lookupD eff "y" = some (.vint 3)) :=
  ⟨⟨rfl, rfl, rfl, rfl, rfl, rfl, rfl⟩,
    c6_optimize_override_wins initialTemplates cfgB "y" (.vint 2) (.vint 3)
      rfl rfl rfl rfl rfl rfl rfl⟩

/-! Lifecycle lemmas. -/

theorem prepareStep_always_fails (fs : FileSys) (st : OrchState)
    (m : Option Int) (cf : Option String) :
    (∃ e, (prepareStep fs st m cf).2 = some e)
    ∧ (prepareStep fs st m cf).2 ≠ some (.exn "Unknown mode provided")
    ∧ (prepareStep fs st m cf).1.mode = st.mode
    ∧ (prepareStep fs st m cf).1._config = st._config
    ∧ (prepareStep fs st m cf).1.config = st.config
    ∧ (prepareStep fs st m cf).1.stores = st.stores
    ∧ (prepareStep fs st m cf).1.datas = st.datas
    ∧ (prepareStep fs st m cf).1.result = st.result := by
  rcases cf with _ | f
  · rcases hf : st._filename with _ | f0
    · have hp : prepareStep fs st m none
          = (st, some (.exn "No config file defined")) := by
        simp only [prepareStep, hf]
      refine ⟨⟨_, by rw [hp]⟩, ?_, by rw [hp], by rw [hp], by rw [hp],
        by rw [hp], by rw [hp], by rw [hp]⟩
      intro h
      rw [hp] at h
      exact absurd (PyError.exn.inj (Option.some.inj h)) (by decide)
    · have hp : prepareStep fs st m none
          = (st, some (.attributeError "filename")) := by
        simp only [prepareStep, hf]
      refine ⟨⟨_, by rw [hp]⟩, ?_, by rw [hp], by rw [hp], by rw [hp],
        by rw [hp], by rw [hp], by rw [hp]⟩
      intro h
      rw [hp] at h
      exact PyError.noConfusion (Option.some.inj h)
  · have hp : prepareStep fs st m (some f)
        = ({ st with _filename := some f }, some (.attributeError "filename")) :=
      rfl
    refine ⟨⟨_, by rw [hp]⟩, ?_, by rw [hp], by rw [hp], by rw [hp],
      by rw [hp], by rw [hp], by rw [hp]⟩
    intro h
    rw [hp] at h
    exact PyError.noConfusion (Option.some.inj h)

theorem runStep_of_prepare {fs : FileSys} {st st1 : OrchState}
    {m : Option Int} {cf : Option String} {e : PyError}
    (hp : prepareStep fs st m cf = (st1, some e)) (er : List Val) :
    runStep fs er st m cf = (st1, .error e) := by
  unfold runStep
  rw [hp]

/-- C3: on the code as written, `_setup` never invokes any part's setup
hook, in any order.  `for p in self._parts` iterates the parts dict's
keys, and calling `.setup()` on the key string raises AttributeError at
the first iteration — even though the unused helper `_getParts` computes
exactly the descending-priority, discovery-order-stable name order the
spec describes (here: PartCerebro with priority 99 before PartBacktrader
with priority 90). -/
theorem c3_setup_invokes_no_hook :
    (setupRun partsEx).1 = []
    ∧ (setupRun partsEx).2 = some (.attributeError "setup")
    ∧ getParts partsEx = ["PartCerebro", "PartBacktrader"] :=
  ⟨rfl, rfl, rfl⟩

/-- C4 counterexample: calling `run` with unrecognized mode 5 on a fresh
orchestrator raises AttributeError (from the undefined `self.filename`
attribute read in `_prepare`), not the UnknownMode error the claim
states — though the orchestrator state is indeed left unchanged here. -/
theorem c4_unknown_mode_counterexample :
    (runStep fsEx resEx stEx (some 5) none).2
        = .error (.attributeError "filename")
    ∧ (runStep fsEx resEx stEx (some 5) none).2
        ≠ .error (.exn "Unknown mode provided")
    ∧ (runStep fsEx resEx stEx (some 5) none).1 = stEx := by
  refine ⟨rfl, ?_, rfl⟩
  intro h
  rw [show (runStep fsEx resEx stEx (some 5) none).2
      = .error (.attributeError "filename") from rfl] at h
  exact PyError.noConfusion (Except.error.inj h)

/-- C4 amended: for every mode value outside the three recognized
values, `run` raises an error — but an AttributeError from the undefined
`filename` attribute (or the missing-config-file Exception when no
filename is set), never the UnknownMode error, which sits after the
unreachable file load — and it leaves the orchestrator state (mode, raw
config, effective config, stores, datas, result) unchanged; only the
stored config filename is updated when a configfile argument is
given. -/
theorem c4_unknown_mode_amended (fs : FileSys) (er : List Val)
    (st : OrchState) (m : Int)
    (hm : ¬(m = MODE_LIVE ∨ m = MODE_BACKTEST ∨ m = MODE_OPTIMIZE))
    (cf : Option String) :
    (∃ e, (runStep fs er st (some m) cf).2 = .error e)
    ∧ (runStep fs er st (some m) cf).2 ≠ .error (.exn "Unknown mode provided")
    ∧ (runStep fs er st (some m) cf).1.mode = st.mode
    ∧ (runStep fs er st (some m) cf).1._config = st._config
    ∧ (runStep fs er st (some m) cf).1.config = st.config
    ∧ (runStep fs er st (some m) cf).1.stores = st.stores
    ∧ (runStep fs er st (some m) cf).1.datas = st.datas
    ∧ (runStep fs er st (some m) cf).1.result = st.result := by
  obtain ⟨⟨e, he⟩, hne, h1, h2, h3, h4, h5, h6⟩ :=
    prepareStep_always_fails fs st (some m) cf
  rcases hpair : prepareStep fs st (some m) cf with ⟨st1, e2⟩
  rw [hpair] at he h1 h2 h3 h4 h5 h6 hne
  have he2 : e2 = some e := he
  subst he2
  have hrun := runStep_of_prepare hpair er
  rw [hrun]
  refine ⟨⟨e, rfl⟩, ?_, h1, h2, h3, h4, h5, h6⟩
  intro h
  exact hne (congrArg some (Except.error.inj h))

/-- Witness for the amended C4 at a concrete input: mode 5 on a fresh
orchestrator. -/
theorem c4_unknown_mode_amended_witness :
    (¬((5 : Int) = MODE_LIVE ∨ (5 : Int) = MODE_BACKTEST
        ∨ (5 : Int) = MODE_OPTIMIZE))
    ∧ ((∃ e, (runStep fsEx resEx stEx (some 5) none).2 = .error e)
      ∧ (runStep fsEx resEx stEx (some 5) none).2
          ≠ .error (.exn "Unknown mode provided")
      ∧ (runStep fsEx resEx stEx (some 5) none).1.mode = stEx.mode
      ∧ (runStep fsEx resEx stEx (some 5) none).1._config = stEx._config
      ∧ (runStep fsEx resEx stEx (some 5) none).1.config = stEx.config
      ∧ (runStep fsEx resEx stEx (some 5) none).1.stores = stEx.stores
      ∧ (runStep fsEx resEx stEx (some 5) none).1.datas = stEx.datas
      ∧ (runStep fsEx resEx stEx (some 5) none).1.result = stEx.result) :=
  ⟨by decide,
    c4_unknown_mode_amended fsEx resEx stEx 5 (by decide) none⟩

/-- C7: the prepare transition never loads the config file.  Even when
the file system holds a present, well-formed config file under the given
name, `_prepare` stores the filename and then raises
AttributeError('filename') — line 377 reads `self.filename`, an
attribute no method ever assigns (the instance attribute is
`_filename`) — before `open`/`json.load` ever run, so no
ConfigFileError distinction between missing, malformed and well-formed
files is reachable. -/
theorem c7_prepare_never_loads (fs : FileSys) (st : OrchState)
    (m : Option Int) (f : String) (hwellformed : ∃ d, fs f = some (some d)) :
    prepareStep fs st m (some f)
      = ({ st with _filename := some f }, some (.attributeError "filename")) :=
  rfl

/-- Witness for C7 at a concrete input: a file system where
"config.json" exists and parses. -/
theorem c7_prepare_never_loads_witness :
    (∃ d, fsEx "config.json" = some (some d))
    ∧ prepareStep fsEx stEx none (some "config.json")
        = ({ stEx with _filename := some "config.json" },
            some (.attributeError "filename")) :=
  ⟨⟨[], rfl⟩,
    c7_prepare_never_loads fsEx stEx none "config.json" ⟨[], rfl⟩⟩

/-- C8: calling `log` with no config loaded raises the
Exception('No config loaded') (the spec's NotConfigured); with a config
loaded that carries a `logging` section, the text goes to the structured
logger at the given severity when `logging.enabled` is unset (default
true) or set to true, and directly to stdout when it is set to
false. -/
theorem c8_log_routing (st : OrchState) (c lg : List Entry) (level : Int)
    (hc : st.config = some c)
    (hlg : lookupD c "logging" = some (.vdict lg)) :
    logCall { st with config := none } level = .error (.exn "No config loaded")
    ∧ (lookupD lg "enabled" = none → logCall st level = .ok (.logger level))
    ∧ (lookupD lg "enabled" = some (.vbool true) →
        logCall st level = .ok (.logger level))
    ∧ (lookupD lg "enabled" = some (.vbool false) →
        logCall st level = .ok .stdout) := by
  refine ⟨rfl, ?_, ?_, ?_⟩
  · intro he
    simp only [logCall, hc, hlg, he]
    simp [truthy, Option.getD]
  · intro he
    simp only [logCall, hc, hlg, he]
    simp [truthy, Option.getD]
  · intro he
    simp only [logCall, hc, hlg, he]
    simp [truthy, Option.getD]

/-- Witness for C8 at a concrete input: a state holding a loaded config
with an (empty) `logging` section. -/
theorem c8_log_routing_witness :
    (stLog.config = some cfgLog
      ∧ lookupD cfgLog "logging" = some (.vdict []))
    ∧ (logCall { stLog with config := none } 20
          = .error (.exn "No config loaded")
      ∧ (lookupD ([] : List Entry) "enabled" = none →
          logCall stLog 20 = .ok (.logger 20))
      ∧ (lookupD ([] : List Entry) "enabled" = some (.vbool true) →
          logCall stLog 20 = .ok (.logger 20))
      ∧ (lookupD ([] : List Entry) "enabled" = some (.vbool false) →
          logCall stLog 20 = .ok .stdout)) :=
  ⟨⟨rfl, rfl⟩, c8_log_routing stLog cfgLog [] 20 rfl rfl⟩

/-- C9: on the code as written, `_finish` stores the engine's run result
in `self.result` but then invokes no part's finish hook: the loop
iterates the parts dict's keys and calls `.finish(...)` on the key
string, raising AttributeError at the first iteration — the hooks never
receive the result, in any order. -/
theorem c9_finish_invokes_no_hook :
    (finishRun partsEx resEx).1 = ([] : List (String × List Val))
    ∧ (finishRun partsEx resEx).2.1 = resEx
    ∧ (finishRun partsEx resEx).2.2 = some (.attributeError "finish") :=
  ⟨rfl, rfl, rfl⟩

/-- C10: `run` can never return normally.  Its final statement reads
`self._result`, an attribute absent from the set of attributes any
method of the class ever assigns (the run result is stored in `result`),
so the return statement itself would raise AttributeError in every
state; and independently, every `run` call errors out of an earlier
phase for every input. -/
theorem c10_run_never_returns :
    (∀ st : OrchState,
      (instanceAttrs st).contains "_result" = false
      ∧ runReturn st = .error (.attributeError "_result"))
    ∧ ∀ (fs : FileSys) (er : List Val) (st : OrchState) (m : Option Int)
        (cf : Option String), ∃ e, (runStep fs er st m cf).2 = .error e := by
  constructor
  · intro st
    exact ⟨rfl, rfl⟩
  · intro fs er st m cf
    obtain ⟨⟨e, he⟩, -, -, -, -, -, -, -⟩ := prepareStep_always_fails fs st m cf
    rcases hpair : prepareStep fs st m cf with ⟨st1, e2⟩
    rw [hpair] at he
    have he2 : e2 = some e := he
    subst he2
    exact ⟨e, by rw [runStep_of_prepare hpair er]⟩
